import Mathlib

/-!
Shallow embedding of the `save` / `load` slash-command module of the
gemini-cli archive feature (loadCommand.ts and the save command source).

Modelling conventions:
* JavaScript strings are Lean `String`s; the JS string primitives used by the
  code (`startsWith`, `endsWith`, `trim`, `split`, `padStart`, template
  interpolation) are re-implemented below on `List Char` so that they are
  kernel-computable.
* Node `path.join` / `path.basename` are modelled with `/`-segment
  normalisation (including `..` resolution), as Node performs.
* Effectful code runs in the monad `M α := World → Except String α × World`:
  a JS exception is `Except.error msg`; `try`/`catch`/`finally` are the
  combinators `M.tryCatch` / `M.tryFinally`.  State mutations performed
  before a throw persist, as in real filesystem code.
* The filesystem is abstracted to what the handlers touch: the top-level
  entries of the project root (name plus an abstract `blob` identifying the
  content), the extraction temp directory, and the archives directory.
  Fallible external operations (`fs.mkdir`, `fs.readFile` + `JSON.parse`,
  `tar.extract`, `tar.create`, `fs.readdir`, metadata write) take their
  outcome from oracle fields of `World`, so theorems quantify over every
  possible success/failure interleaving.  The mutation primitives
  `fs.rm(..., force)` / `fs.cp` / `fs.mkdtemp` are modelled by their success
  semantics on the abstract state.
-/

namespace GeminiArchive

/-- Splits a character list at every occurrence of `sep`; embedding of
JS `String.prototype.split` with a single-character separator
(`"".split(sep) = [""]`, as in JS). -/
def splitOnChar (sep : Char) : List Char → List String
  | [] => [""]
  | c :: rest =>
    let r := splitOnChar sep rest
    if c = sep then
      "" :: r
    else
      match r with
      | [] => [String.mk [c]]
      | s :: ss => String.mk (c :: s.data) :: ss

/-- Embedding of JS `String.prototype.startsWith`. -/
def strStartsWith (s p : String) : Bool :=
  p.data.isPrefixOf s.data

/-- Embedding of JS `String.prototype.endsWith`. -/
def strEndsWith (s p : String) : Bool :=
  p.data.isSuffixOf s.data

/-- Embedding of JS `String.prototype.trim` (strip leading and trailing
whitespace). -/
def jsTrim (s : String) : String :=
  String.mk (((s.data.dropWhile Char.isWhitespace).reverse.dropWhile
    Char.isWhitespace).reverse)

/-- Is `p` a contiguous sub-sequence of `l`?  Used to state that one string
occurs inside another (JS `String.prototype.includes`). -/
def containsSeq : List Char → List Char → Bool
  | p, [] => p.isEmpty
  | p, c :: t => p.isPrefixOf (c :: t) || containsSeq p t

/-- Embedding of JS `String.prototype.includes`. -/
def strIncludes (s sub : String) : Bool :=
  containsSeq sub.data s.data

/-- Embedding of JS `String(n).padStart(2, '0')` applied to a decimal
rendering. -/
def padZero2 (s : String) : String :=
  String.mk (List.replicate (2 - s.data.length) '0' ++ s.data)

/-- Joins path segments with `/` (no leading/trailing separator). -/
def joinSegs : List String → String
  | [] => ""
  | [s] => s
  | s :: rest => s ++ "/" ++ joinSegs rest

/-- One step of Node path normalisation: fold a segment onto the
accumulated normalised segment list, resolving `..`. -/
def normStep (isAbs : Bool) (acc : List String) (s : String) : List String :=
  if s = ".." then
    if acc = [] then (if isAbs then [] else [".."])
    else if acc.getLast? = some ".." then acc ++ [".."]
    else acc.dropLast
  else acc ++ [s]

/-- Node-style path normalisation: splits on `/`, drops empty and `.`
segments, resolves `..` against preceding segments. -/
def normalizePath (p : String) : String :=
  let isAbs := strStartsWith p "/"
  let segs := (splitOnChar '/' p.data).filter (fun s => s != "" && s != ".")
  let norm := segs.foldl (normStep isAbs) []
  if isAbs then "/" ++ joinSegs norm
  else if joinSegs norm = "" then "." else joinSegs norm

/-- Embedding of Node `path.join(a, b)`. -/
def pathJoin (a b : String) : String :=
  if a = "" then normalizePath b
  else if b = "" then normalizePath a
  else normalizePath (a ++ "/" ++ b)

/-- Embedding of Node `path.basename`: the last non-empty `/`-segment. -/
def pathBasename (p : String) : String :=
  (((splitOnChar '/' p.data).filter (fun s => s != "")).getLast?).getD ""

/-- Embedding of `[...new Set(xs)]` on strings: first-occurrence
deduplication preserving order. -/
def jsSetDedup (xs : List String) : List String :=
  xs.foldl (fun acc x => if acc.contains x then acc else acc ++ [x]) []

/-- JS `opt || dflt` for an optional string: `undefined` and `""` are both
falsy. -/
def jsOrDefault (o : Option String) (d : String) : String :=
  match o with
  | none => d
  | some s => if s = "" then d else s

/-- One archive record of the metadata sidecar (`ArchiveMetadata` in the
source). -/
structure ArchiveMetadata where
  filename : String
  timestamp : Int
  description : String
deriving DecidableEq

/-- A top-level directory entry: a name plus an abstract identifier of its
content. -/
structure Entry where
  name : String
  blob : Nat
deriving DecidableEq

/-- An opaque JSON value as seen by the legacy branch: only its JS
truthiness and an abstract payload identity matter to the handler. -/
structure JsVal where
  truthy : Bool
  payload : Nat
deriving DecidableEq

/-- Result of `JSON.parse` on a legacy history file: the two optional
fields the handler inspects. -/
structure LegacyDoc where
  history : Option JsVal
  clientHistory : Option JsVal
deriving DecidableEq

/-- JS truthiness of an optional JSON field (`undefined` is falsy). -/
def jsTruthy : Option JsVal → Bool
  | none => false
  | some v => v.truthy

/-- Combined outcome of `fs.readFile` on the metadata sidecar followed by
`JSON.parse`: missing file, read failure, parse failure, or a record
list. -/
inductive MetaOutcome where
  | enoent
  | readFailure (msg : String)
  | parseFailure (msg : String)
  | ok (records : List ArchiveMetadata)
deriving DecidableEq

/-- Log entry for each filesystem / codec operation the handlers perform. -/
inductive FsOp where
  | mkdirOp (p : String)
  | mkdtempOp (p : String)
  | extractOp (file : String) (cwd : String)
  | readdirOp (p : String)
  | rmOp (p : String)
  | cpOp (src : String) (dst : String)
  | readFileOp (p : String)
  | createOp (file : String) (excludes : List String)
  | writeFileOp (p : String)
deriving DecidableEq

/-- The slice of `Config` the two commands consult. -/
structure Config where
  projectTempDir : Option String
  projectRoot : Option String

/-- The local-time accessor results of a JS `Date` (note `getMonth` is
0-based, as in JS). -/
structure JSDate where
  getFullYear : Nat
  getMonth : Nat
  getDate : Nat
  getHours : Nat
  getMinutes : Nat
  getSeconds : Nat

/-- The abstract world a handler invocation runs in: filesystem state,
oracles fixing the outcome of each fallible external operation, collaborator
availability, and logs of observable effects. -/
@[ext]
structure World where
  /-- does `<tempDir>/archives` exist on disk? -/
  archivesDirExists : Bool
  /-- oracle: `fs.mkdir(archivesDir, recursive)` throws with this message -/
  mkdirFails : Option String
  /-- oracle: outcome of reading + parsing the metadata sidecar -/
  metaOutcome : MetaOutcome
  /-- top-level entries of the project root -/
  root : List Entry
  /-- does the restore temp directory exist? -/
  tempExists : Bool
  /-- top-level entries of the restore temp directory -/
  tempContents : List Entry
  /-- oracle: `tar.extract` throws, or deposits these entries in the temp dir -/
  extractOutcome : Except String (List Entry)
  /-- oracle: `fs.readdir(projectRoot)` throws with this message -/
  readdirRootFails : Option String
  /-- oracle: `fs.readdir(tempDir)` throws with this message -/
  readdirTempFails : Option String
  /-- oracle: `tar.create` throws with this message -/
  tarCreateFails : Option String
  /-- oracle: writing the metadata sidecar throws with this message -/
  writeMetaFails : Option String
  /-- oracle: `fs.readFile` + `JSON.parse` of a legacy history file -/
  legacyOutcome : Except String LegacyDoc
  /-- is `ui.loadHistory` defined in the current UI mode? -/
  uiHasLoadHistory : Bool
  /-- does `config.getGeminiClient()` return a client? -/
  clientAvailable : Bool
  /-- values passed to `ui.loadHistory`, in call order -/
  uiHistoryCalls : List JsVal
  /-- values passed to the chat client's `setHistory`, in call order -/
  clientHistoryCalls : List JsVal
  /-- last metadata list written to the sidecar, if any write happened -/
  writtenMetadata : Option (List ArchiveMetadata)
  /-- `(text, timestamp)` pairs passed to `ui.addItem` -/
  uiAddItems : List (String × Int)
  /-- log of filesystem / codec operations performed -/
  trace : List FsOp

/-- The structured message a handler returns (`type: 'message'` in the
source; `messageType` is `"info"` or `"error"`). -/
structure MessageResult where
  messageType : String
  content : String
deriving DecidableEq

/-- A completion suggestion (`CompletionCandidate` in the source). -/
structure CompletionCandidate where
  label : String
  value : String
  description : String
deriving DecidableEq

/-- The handler monad: explicit world passing with JS-style exceptions.
A thrown exception carries its message; world mutations made before the
throw persist. -/
def M (α : Type) : Type :=
  World → Except String α × World

instance : Monad M where
  pure a := fun w => (Except.ok a, w)
  bind x f := fun w =>
    match x w with
    | (Except.ok a, w') => f a w'
    | (Except.error e, w') => (Except.error e, w')

/-- Throw a JS exception. -/
def M.throwErr {α : Type} (e : String) : M α :=
  fun w => (Except.error e, w)

/-- `try { x } catch (e) { h(e) }`. -/
def M.tryCatch {α : Type} (x : M α) (h : String → M α) : M α :=
  fun w =>
    match x w with
    | (Except.ok a, w') => (Except.ok a, w')
    | (Except.error e, w') => h e w'

/-- `try { x } finally { cleanup }`: the cleanup runs on both exit paths and
the body's outcome (value or exception) is then propagated. -/
def M.tryFinally {α : Type} (x : M α) (cleanup : M Unit) : M α :=
  fun w =>
    match x w with
    | (Except.ok a, w') =>
      match cleanup w' with
      | (Except.ok _, w'') => (Except.ok a, w'')
      | (Except.error e, w'') => (Except.error e, w'')
    | (Except.error e, w') =>
      match cleanup w' with
      | (Except.ok _, w'') => (Except.error e, w'')
      | (Except.error e', w'') => (Except.error e', w'')

/-- Name of the metadata sidecar file. -/
def ARCHIVE_METADATA_FILE : String := "archive-metadata.json"

/-- Name of the archives directory. -/
def ARCHIVES_DIR_NAME : String := "archives"

/-- The fixed result of `os.tmpdir()` in this model. -/
def osTmpdir : String := "/tmp"

/-- `fs.mkdir(p, { recursive: true })`: either throws (oracle) or ensures
the archives directory exists. -/
def fsMkdirRecursive (p : String) : M Unit :=
  fun w =>
    match w.mkdirFails with
    | some msg => (Except.error msg, w)
    | none =>
      (Except.ok (), { w with
        archivesDirExists := true
        trace := w.trace ++ [FsOp.mkdirOp p] })

/-- `readArchiveMetadata` from the source: read the sidecar, return `[]` on
ENOENT, rethrow other read errors, parse JSON. -/
def readArchiveMetadata (archivesDir : String) : M (List ArchiveMetadata) :=
  fun w =>
    let metadataPath := pathJoin archivesDir ARCHIVE_METADATA_FILE
    let w' := { w with trace := w.trace ++ [FsOp.readFileOp metadataPath] }
    match w.metaOutcome with
    | MetaOutcome.enoent => (Except.ok [], w')
    | MetaOutcome.readFailure m => (Except.error m, w')
    | MetaOutcome.parseFailure m => (Except.error m, w')
    | MetaOutcome.ok records => (Except.ok records, w')

/-- `writeArchiveMetadata` from the source: overwrite the sidecar with the
serialised record list. -/
def writeArchiveMetadata (archivesDir : String)
    (metadata : List ArchiveMetadata) : M Unit :=
  fun w =>
    let metadataPath := pathJoin archivesDir ARCHIVE_METADATA_FILE
    match w.writeMetaFails with
    | some m => (Except.error m, w)
    | none =>
      (Except.ok (), { w with
        writtenMetadata := some metadata
        trace := w.trace ++ [FsOp.writeFileOp metadataPath] })

/-- `getArchivesDir` from the source: `undefined` when the project temp dir
is unavailable, otherwise `mkdir -p` the archives dir and return its path. -/
def getArchivesDir (config : Config) : M (Option String) := do
  match config.projectTempDir with
  | none => pure none
  | some projectTempDir => do
    let archivesDir := pathJoin projectTempDir ARCHIVES_DIR_NAME
    fsMkdirRecursive archivesDir
    pure (some archivesDir)

/-- `fs.mkdtemp(prefixPath)`: creates a fresh empty temp directory and
returns its path (deterministic stand-in for the random suffix). -/
def fsMkdtemp (p : String) : M String :=
  fun w =>
    (Except.ok (p ++ "XXXXXX"), { w with
      tempExists := true
      tempContents := []
      trace := w.trace ++ [FsOp.mkdtempOp p] })

/-- `tar.extract({ file, cwd })`: throws (oracle) or deposits the archive's
top-level entries into the temp directory. -/
def tarExtract (file : String) (cwd : String) : M Unit :=
  fun w =>
    let w' := { w with trace := w.trace ++ [FsOp.extractOp file cwd] }
    match w.extractOutcome with
    | Except.error e => (Except.error e, w')
    | Except.ok entries =>
      (Except.ok (), { w' with tempContents := entries })

/-- `fs.readdir(projectRoot)`: the current top-level entry names. -/
def fsReaddirRoot (projectRoot : String) : M (List String) :=
  fun w =>
    let w' := { w with trace := w.trace ++ [FsOp.readdirOp projectRoot] }
    match w.readdirRootFails with
    | some m => (Except.error m, w')
    | none => (Except.ok (w.root.map Entry.name), w')

/-- `fs.readdir(tempDir)`: the current top-level entry names of the temp
directory. -/
def fsReaddirTemp (tempDir : String) : M (List String) :=
  fun w =>
    let w' := { w with trace := w.trace ++ [FsOp.readdirOp tempDir] }
    match w.readdirTempFails with
    | some m => (Except.error m, w')
    | none => (Except.ok (w.tempContents.map Entry.name), w')

/-- `fs.rm(path.join(projectRoot, item), { recursive, force })` on a
project-root entry (success semantics: the entry is gone afterwards). -/
def fsRmRootEntry (projectRoot item : String) : M Unit :=
  fun w =>
    (Except.ok (), { w with
      root := w.root.filter (fun e => e.name != item)
      trace := w.trace ++ [FsOp.rmOp (pathJoin projectRoot item)] })

/-- `fs.cp(src, dst, { recursive })` from the temp dir to the project root:
the temp entry's content replaces any project-root entry of that name. -/
def fsCpTempToRoot (tempDir projectRoot item : String) : M Unit :=
  fun w =>
    let w' := { w with trace := w.trace ++
      [FsOp.cpOp (pathJoin tempDir item) (pathJoin projectRoot item)] }
    match w.tempContents.find? (fun e => e.name == item) with
    | some entry =>
      (Except.ok (), { w' with
        root := w'.root.filter (fun e => e.name != item) ++ [entry] })
    | none => (Except.ok (), w')

/-- `fs.rm(path.join(tempDir, item), { recursive, force })` on a temp-dir
entry. -/
def fsRmTempEntry (tempDir item : String) : M Unit :=
  fun w =>
    (Except.ok (), { w with
      tempContents := w.tempContents.filter (fun e => e.name != item)
      trace := w.trace ++ [FsOp.rmOp (pathJoin tempDir item)] })

/-- `fs.rm(tempDir, { recursive, force })`: the temp directory and its
contents are gone afterwards. -/
def fsRmTempDir (tempDir : String) : M Unit :=
  fun w =>
    (Except.ok (), { w with
      tempExists := false
      tempContents := []
      trace := w.trace ++ [FsOp.rmOp tempDir] })

/-- `fs.readFile(filePath)` + `JSON.parse` on a legacy history file. -/
def fsReadLegacy (filePath : String) : M LegacyDoc :=
  fun w =>
    let w' := { w with trace := w.trace ++ [FsOp.readFileOp filePath] }
    match w.legacyOutcome with
    | Except.error e => (Except.error e, w')
    | Except.ok doc => (Except.ok doc, w')

/-- Is `ui.loadHistory` defined? -/
def uiLoadHistoryAvailable : M Bool :=
  fun w => (Except.ok w.uiHasLoadHistory, w)

/-- `ui.loadHistory(v)`. -/
def uiLoadHistory (v : JsVal) : M Unit :=
  fun w => (Except.ok (), { w with uiHistoryCalls := w.uiHistoryCalls ++ [v] })

/-- `config?.getGeminiClient()?.setHistory(v)`: skipped silently when no
client handle exists. -/
def clientSetHistoryMaybe (v : JsVal) : M Unit :=
  fun w =>
    if w.clientAvailable then
      (Except.ok (), { w with
        clientHistoryCalls := w.clientHistoryCalls ++ [v] })
    else (Except.ok (), w)

/-- `ui.addItem({ type: 'info', text }, timestamp)`. -/
def uiAddItem (text : String) (ts : Int) : M Unit :=
  fun w => (Except.ok (), { w with uiAddItems := w.uiAddItems ++ [(text, ts)] })

/-- `tar.create({ gzip, file, cwd, filter }, ['.'])`: throws (oracle) or
records the archive creation together with the exclusion set driving its
filter. -/
def tarCreate (file : String) (excludes : List String) : M Unit :=
  fun w =>
    let w' := { w with trace := w.trace ++ [FsOp.createOp file excludes] }
    match w.tarCreateFails with
    | some m => (Except.error m, w')
    | none => (Except.ok (), w')

/-- `filteredArchives.sort((a, b) => b.timestamp - a.timestamp)`: a stable
sort putting larger timestamps first (ES2019+ `Array.prototype.sort` is
stable; for a consistent comparator every stable sort yields the same
output, so insertion sort is a faithful model). -/
def jsSortByTimestampDesc (l : List ArchiveMetadata) : List ArchiveMetadata :=
  l.insertionSort (fun a b => b.timestamp ≤ a.timestamp)

/-- One rendered line of list mode:
`- <filename> (Created: <date>)[ - <description>]\n`. -/
def renderArchiveLine (fmtDate : Int → String) (archive : ArchiveMetadata) :
    String :=
  "- " ++ archive.filename ++ " (Created: " ++ fmtDate archive.timestamp ++
    ")" ++
    (if archive.description = "" then "" else " - " ++ archive.description) ++
    "\n"

/-- The records list mode renders, in order: the stored records filtered to
the current project's filename pattern, sorted newest first. -/
def listedRecords (projectName : String) (archives : List ArchiveMetadata) :
    List ArchiveMetadata :=
  jsSortByTimestampDesc
    (archives.filter (fun archive =>
      strStartsWith archive.filename (projectName ++ "-archive-")))

/-- The error message returned when a `.tar.gz` restore lacks `--force`. -/
def noForceMessage (selectedFile projectRoot : String) : String :=
  "Loading '" ++ selectedFile ++
    "' will overwrite the contents of your current project directory (" ++
    projectRoot ++
    "). This is a destructive operation. To proceed, please run the command again with the '--force' flag (e.g., /load " ++
    selectedFile ++ " --force)."

/-- The keep-list of the restore wipe phase. -/
def filesToKeep : List String := [".git", "node_modules", ARCHIVES_DIR_NAME]

/-- The wipe phase: for every enumerated project-root entry name not on the
keep-list, `fs.rm` it (the source's first `for` loop, item by item). -/
def wipePhase (projectRoot : String) : List String → M Unit
  | [] => pure ()
  | item :: rest => do
    if filesToKeep.contains item then pure ()
    else fsRmRootEntry projectRoot item
    wipePhase projectRoot rest

/-- The move phase: for every enumerated temp-dir entry name, copy it to the
project root and remove the source (the source's second `for` loop, item by
item). -/
def movePhase (tempDir projectRoot : String) : List String → M Unit
  | [] => pure ()
  | item :: rest => do
    fsCpTempToRoot tempDir projectRoot item
    fsRmTempEntry tempDir item
    movePhase tempDir projectRoot rest

/-- The tail of the legacy branch: maybe forward `clientHistory` to the chat
client, then return the success message. -/
def legacyTail (selectedFile : String) (toolCallData : LegacyDoc) :
    M MessageResult := do
  match toolCallData.clientHistory with
  | some v =>
    if v.truthy then do
      clientSetHistoryMaybe v
      pure ⟨"info", "Archive '" ++ selectedFile ++ "' loaded successfully."⟩
    else
      pure ⟨"info", "Archive '" ++ selectedFile ++ "' loaded successfully."⟩
  | none =>
    pure ⟨"info", "Archive '" ++ selectedFile ++ "' loaded successfully."⟩

/-- The legacy (non-`.tar.gz`) branch: read and parse the file; if the
`history` field is truthy, require `ui.loadHistory` and forward to it; then
handle `clientHistory` and report success. -/
def legacyBranch (selectedFile filePath : String) : M MessageResult := do
  let toolCallData ← fsReadLegacy filePath
  match toolCallData.history with
  | some v =>
    if v.truthy then do
      let avail ← uiLoadHistoryAvailable
      if avail then do
        uiLoadHistory v
        legacyTail selectedFile toolCallData
      else
        pure ⟨"error", "loadHistory function is not available."⟩
    else
      legacyTail selectedFile toolCallData
  | none => legacyTail selectedFile toolCallData

/-- The `try`-block of the forced restore: extract into the temp dir, wipe
the project root (except the keep-list), move the extracted entries in,
report success. -/
def restoreBody (selectedFile filePath projectRoot tempDir : String) :
    M MessageResult := do
  tarExtract filePath tempDir
  let projectContents ← fsReaddirRoot projectRoot
  wipePhase projectRoot projectContents
  let extractedContents ← fsReaddirTemp tempDir
  movePhase tempDir projectRoot extractedContents
  pure ⟨"info", "Archive '" ++ selectedFile ++
    "' loaded and extracted successfully to " ++ projectRoot ++ "."⟩

/-- The `.tar.gz` restore branch once `--force` is present: make a temp dir,
and under a `finally` that removes it, run the restore body. -/
def restoreWithForce (selectedFile filePath projectRoot : String) :
    M MessageResult := do
  let tempDir ← fsMkdtemp (pathJoin osTmpdir "gemini-cli-load-")
  M.tryFinally (restoreBody selectedFile filePath projectRoot tempDir)
    (fsRmTempDir tempDir)

/-- Argument parsing of the load handler: split on single spaces, drop empty
tokens; the first token is the filename unless it begins with `--`;
`--force` anywhere sets the force flag. -/
def parseArgs (args : String) : String × Bool :=
  let parts := (splitOnChar ' ' args.data).filter (fun s => s != "")
  let firstPart := parts.headD ""
  (if strStartsWith firstPart "--" then "" else firstPart,
   parts.contains "--force")

/-- `loadAction` from the source.  `ctxConfig` is `context.services.config`;
`fmtDate` abstracts `Date.prototype.toLocaleString`. -/
def loadAction (ctxConfig : Option Config) (fmtDate : Int → String)
    (args : String) : M MessageResult := do
  match ctxConfig with
  | none => pure ⟨"error", "Configuration not available."⟩
  | some config => do
    let archivesDirOpt ← getArchivesDir config
    match archivesDirOpt with
    | none => pure ⟨"error", "Could not determine the .gemini directory path."⟩
    | some archivesDir => do
      let parsed := parseArgs args
      let selectedFile := parsed.1
      let forceConfirm := parsed.2
      if selectedFile = "" then
        M.tryCatch
          (do
            let archives ← readArchiveMetadata archivesDir
            let projectName :=
              pathBasename (jsOrDefault config.projectRoot "project")
            let filteredArchives := archives.filter (fun archive =>
              strStartsWith archive.filename (projectName ++ "-archive-"))
            if filteredArchives.length = 0 then
              pure ⟨"info", "No saved archives found for the current project."⟩
            else
              pure ⟨"info",
                (listedRecords projectName archives).foldl
                  (fun acc archive => acc ++ renderArchiveLine fmtDate archive)
                  "Available archives for the current project:\n\n"⟩)
          (fun e => pure ⟨"error", "Error loading archives: " ++ e⟩)
      else
        M.tryCatch
          (do
            let filePath := pathJoin archivesDir selectedFile
            if strEndsWith selectedFile ".tar.gz" then
              let projectRoot := (config.projectRoot).getD ""
              if projectRoot = "" then
                pure ⟨"error", "Could not determine the project root path."⟩
              else if forceConfirm then
                restoreWithForce selectedFile filePath projectRoot
              else
                pure ⟨"error", noForceMessage selectedFile projectRoot⟩
            else
              legacyBranch selectedFile filePath)
          (fun e =>
            pure ⟨"error", "Error loading archive " ++ selectedFile ++ ": "
              ++ e⟩)

/-- The exclusion set of the save handler:
`[...new Set([...defaultExcludes, ...previouslySavedArchives])]`. -/
def saveExcludes (existingMetadata : List ArchiveMetadata) : List String :=
  jsSetDedup (["node_modules", ".git", ARCHIVES_DIR_NAME] ++
    existingMetadata.map (fun m => m.filename))

/-- The path normalisation inside the `tar.create` filter: strip a leading
`./` (`filePath.substring(2)`). -/
def stripDotSlash (filePath : String) : String :=
  if strStartsWith filePath "./" then String.mk (filePath.data.drop 2)
  else filePath

/-- The `tar.create` filter of the save handler: strip a leading `./`, then
include the path iff it does not start (plain string prefix) with any
excluded name. -/
def saveFilter (allExcludes : List String) (filePath : String) : Bool :=
  !(allExcludes.any (fun exclude =>
    strStartsWith (stripDotSlash filePath) exclude))

/-- The `YYYYMMDD-HHMMSS` stamp the save handler builds from local-time
`Date` fields (note the source's `getMonth() + 1`). -/
def formattedTimestamp (now : JSDate) : String :=
  toString now.getFullYear ++ padZero2 (toString (now.getMonth + 1)) ++
    padZero2 (toString now.getDate) ++ "-" ++
    padZero2 (toString now.getHours) ++ padZero2 (toString now.getMinutes) ++
    padZero2 (toString now.getSeconds)

/-- `saveAction` from the source.  `timestamp` is `Date.now()` and `now` the
`Date` built from it. -/
def saveAction (ctxConfig : Option Config) (timestamp : Int) (now : JSDate)
    (args : String) : M MessageResult := do
  match ctxConfig with
  | none => pure ⟨"error", "Configuration not available."⟩
  | some config => do
    let archivesDirOpt ← getArchivesDir config
    match archivesDirOpt with
    | none => pure ⟨"error", "Could not determine the .gemini directory path."⟩
    | some archivesDir => do
      let projectName := pathBasename (jsOrDefault config.projectRoot "project")
      let archiveFileName :=
        projectName ++ "-archive-" ++ formattedTimestamp now ++ ".tar.gz"
      let archivePath := pathJoin archivesDir archiveFileName
      let description := jsTrim args
      M.tryCatch
        (do
          uiAddItem ("Creating archive: " ++ archivePath) timestamp
          let existingMetadata ← readArchiveMetadata archivesDir
          let allExcludes := saveExcludes existingMetadata
          tarCreate archivePath allExcludes
          let newMetadata : ArchiveMetadata :=
            ⟨archiveFileName, timestamp, description⟩
          writeArchiveMetadata archivesDir (existingMetadata ++ [newMetadata])
          uiAddItem ("Archive created successfully: " ++ archivePath) timestamp
          pure ⟨"info", "Archive created at: " ++ archivePath ++
            (if description = "" then ""
             else " with description: \"" ++ description ++ "\"")⟩)
        (fun e => pure ⟨"error", "An unexpected error occurred: " ++ e⟩)

/-- `completion` of the load command from the source. -/
def completion (ctxConfig : Option Config) : M (List CompletionCandidate) := do
  match ctxConfig with
  | none => pure []
  | some config => do
    let archivesDirOpt ← getArchivesDir config
    match archivesDirOpt with
    | none => pure []
    | some archivesDir =>
      M.tryCatch
        (do
          let archives ← readArchiveMetadata archivesDir
          let projectName :=
            pathBasename (jsOrDefault config.projectRoot "project")
          pure ((listedRecords projectName archives).map (fun archive =>
            ⟨archive.filename, archive.filename, archive.description⟩)))
        (fun _ => pure [])

/-- Concrete configuration used by witnesses, mirroring the repository's
test fixtures. -/
def cfgTest : Config :=
  ⟨some "/mock/tmp", some "/mock/path/test-project"⟩

/-- A quiescent concrete world: every oracle succeeds, all directories OK,
no prior state. -/
def wBase : World where
  archivesDirExists := true
  mkdirFails := none
  metaOutcome := MetaOutcome.ok []
  root := []
  tempExists := false
  tempContents := []
  extractOutcome := Except.ok []
  readdirRootFails := none
  readdirTempFails := none
  tarCreateFails := none
  writeMetaFails := none
  legacyOutcome := Except.ok ⟨none, none⟩
  uiHasLoadHistory := true
  clientAvailable := true
  uiHistoryCalls := []
  clientHistoryCalls := []
  writtenMetadata := none
  uiAddItems := []
  trace := []

/-- An abstract `toLocaleString` used by witnesses. -/
def fmtDateTest (_ : Int) : String := "1/1/2025, 12:00:00 PM"

/-- A world with project-root contents and a non-empty archive to restore. -/
def wRestoreTest : World :=
  { wBase with
    root := [⟨"src", 1⟩, ⟨".git", 2⟩],
    extractOutcome := Except.ok [⟨"main.ts", 10⟩] }

/-- A world on which the archives directory does not exist yet. -/
def wFresh : World := { wBase with archivesDirExists := false }

/-- A world on which `fs.mkdir` of the archives directory throws. -/
def wMkdirFail : World := { wBase with mkdirFails := some "EACCES" }

/-- A world whose legacy file parses to `{"history": null}` (present but
falsy field, no `clientHistory`). -/
def wLegacyNull : World :=
  { wBase with legacyOutcome := Except.ok ⟨some ⟨false, 7⟩, none⟩ }

/-- A world whose legacy file parses to a truthy `history` value and no
`clientHistory`. -/
def wLegacyHist : World :=
  { wBase with legacyOutcome := Except.ok ⟨some ⟨true, 7⟩, none⟩ }

/-- The handler outcome is a structured message (not an escaped exception)
whose type is `info` or `error`. -/
def okMessage (r : Except String MessageResult × World) : Prop :=
  ∃ m, r.1 = Except.ok m ∧
    (m.messageType = "info" ∨ m.messageType = "error")

/-- A world whose metadata store holds two records with equal timestamps. -/
def wTies : World :=
  { wBase with
    metaOutcome := MetaOutcome.ok [⟨"test-project-archive-a", 5, ""⟩,
      ⟨"test-project-archive-b", 5, "d"⟩] }

end GeminiArchive

deriving instance DecidableEq for Except

namespace GeminiArchive

theorem bind_apply {α β : Type} (x : M α) (f : α → M β) (w : World) :
    (x >>= f) w =
      match x w with
      | (Except.ok a, w') => f a w'
      | (Except.error e, w') => (Except.error e, w') := rfl

theorem pure_apply {α : Type} (a : α) (w : World) :
    (pure a : M α) w = (Except.ok a, w) := rfl

end GeminiArchive

namespace GeminiArchive

theorem wipePhase_run (p : String) (ns : List String) (w : World) :
    ∃ tr, wipePhase p ns w =
      (Except.ok (),
        { w with
          root := w.root.filter (fun e =>
            filesToKeep.contains e.name || !(ns.contains e.name)),
          trace := w.trace ++ tr }) := by
  induction ns generalizing w with
  | nil =>
    refine ⟨[], ?_⟩
    simp [wipePhase, pure_apply]
  | cons n ns ih =>
    by_cases hn : n ∈ filesToKeep
    · obtain ⟨tr, htr⟩ := ih w
      refine ⟨tr, ?_⟩
      have hfilter : w.root.filter (fun e =>
            filesToKeep.contains e.name || !((n :: ns).contains e.name)) =
          w.root.filter (fun e =>
            filesToKeep.contains e.name || !(ns.contains e.name)) := by
        apply List.filter_congr
        intro e _
        by_cases he : e.name = n
        · simp [he, hn]
        · simp [he]
      have hstep : wipePhase p (n :: ns) w = wipePhase p ns w := by
        simp [wipePhase, hn, bind_apply, pure_apply]
      rw [hstep, htr, hfilter]
    · obtain ⟨tr, htr⟩ := ih
        { w with root := w.root.filter (fun e => e.name != n),
                 trace := w.trace ++ [FsOp.rmOp (pathJoin p n)] }
      refine ⟨[FsOp.rmOp (pathJoin p n)] ++ tr, ?_⟩
      have hstep : wipePhase p (n :: ns) w = wipePhase p ns
          { w with root := w.root.filter (fun e => e.name != n),
                   trace := w.trace ++ [FsOp.rmOp (pathJoin p n)] } := by
        simp [wipePhase, hn, bind_apply, fsRmRootEntry]
      rw [hstep, htr]
      simp [List.filter_filter, List.append_assoc]
      apply List.filter_congr
      intro e _
      by_cases he : e.name = n
      · simp [he, hn]
      · simp [he]

theorem movePhase_run (td pr : String) (ns : List String) (w : World)
    (hns : ns = w.tempContents.map Entry.name)
    (hnd : ns.Nodup) :
    ∃ tr, movePhase td pr ns w =
      (Except.ok (),
        { w with
          root := w.root.filter (fun e => !(ns.contains e.name)) ++
            w.tempContents,
          tempContents := [],
          trace := w.trace ++ tr }) := by
  induction ns generalizing w with
  | nil =>
    refine ⟨[], ?_⟩
    have h0 : w.tempContents = [] := by
      cases h : w.tempContents
      · rfl
      · rw [h] at hns; simp at hns
    have hmp : movePhase td pr [] w = (Except.ok (), w) := by
      simp [movePhase, pure_apply]
    rw [hmp]
    apply congrArg (Prod.mk (Except.ok ()))
    ext <;> simp [h0]
  | cons n ns ih =>
    cases htc : w.tempContents with
    | nil => rw [htc] at hns; simp at hns
    | cons e es =>
      rw [htc] at hns
      simp only [List.map_cons, List.cons.injEq] at hns
      obtain ⟨hen, hns'⟩ := hns
      have hn' : n ∉ ns := (List.nodup_cons.mp hnd).1
      have hnd' : ns.Nodup := (List.nodup_cons.mp hnd).2
      have hes : es.filter (fun x => x.name != n) = es := by
        apply List.filter_eq_self.mpr
        intro x hx
        have : x.name ∈ ns := by
          rw [hns']; exact List.mem_map_of_mem Entry.name hx
        simp only [bne_iff_ne, ne_eq]
        intro hxe
        exact hn' (hxe ▸ this)
      obtain ⟨tr, htr⟩ := ih
        { w with
          root := w.root.filter (fun x => x.name != n) ++ [e],
          tempContents := es,
          trace := w.trace ++ [FsOp.cpOp (pathJoin td n) (pathJoin pr n),
            FsOp.rmOp (pathJoin td n)] }
        (by simpa using hns') hnd'
      refine ⟨[FsOp.cpOp (pathJoin td n) (pathJoin pr n),
        FsOp.rmOp (pathJoin td n)] ++ tr, ?_⟩
      have hstep : movePhase td pr (n :: ns) w = movePhase td pr ns
          { w with
            root := w.root.filter (fun x => x.name != n) ++ [e],
            tempContents := es,
            trace := w.trace ++ [FsOp.cpOp (pathJoin td n) (pathJoin pr n),
              FsOp.rmOp (pathJoin td n)] } := by
        simp [movePhase, bind_apply, fsCpTempToRoot, fsRmTempEntry, htc,
          ← hen, hes, List.find?]
      rw [hstep, htr]
      apply congrArg (Prod.mk (Except.ok ()))
      apply World.ext
      all_goals
        simp [List.filter_append, List.filter_filter, List.append_assoc,
          htc, ← hen, hn']
      apply List.filter_congr
      intro x _
      by_cases hxe : x.name = n
      · simp [hxe]
      · simp [hxe, Bool.and_comm]


theorem movePhase_ok (td pr : String) (ns : List String) (w : World) :
    ∃ w' tr, movePhase td pr ns w = (Except.ok (), w') ∧
      w'.trace = w.trace ++ tr := by
  induction ns generalizing w with
  | nil =>
    refine ⟨w, [], ?_, by simp⟩
    simp [movePhase, pure_apply]
  | cons n ns ih =>
    cases hf : w.tempContents.find? (fun e => e.name == n) with
    | none =>
      obtain ⟨w', tr, hrun, htr⟩ := ih
        { w with
          tempContents := w.tempContents.filter (fun e => e.name != n),
          trace := w.trace ++ [FsOp.cpOp (pathJoin td n) (pathJoin pr n),
            FsOp.rmOp (pathJoin td n)] }
      refine ⟨w', [FsOp.cpOp (pathJoin td n) (pathJoin pr n),
        FsOp.rmOp (pathJoin td n)] ++ tr, ?_, ?_⟩
      · have hstep : movePhase td pr (n :: ns) w = movePhase td pr ns
            { w with
              tempContents := w.tempContents.filter (fun e => e.name != n),
              trace := w.trace ++ [FsOp.cpOp (pathJoin td n) (pathJoin pr n),
                FsOp.rmOp (pathJoin td n)] } := by
          simp [movePhase, bind_apply, fsCpTempToRoot, fsRmTempEntry, hf]
        rw [hstep, hrun]
      · rw [htr]; simp
    | some entry =>
      obtain ⟨w', tr, hrun, htr⟩ := ih
        { w with
          root := w.root.filter (fun e => e.name != n) ++ [entry],
          tempContents := w.tempContents.filter (fun e => e.name != n),
          trace := w.trace ++ [FsOp.cpOp (pathJoin td n) (pathJoin pr n),
            FsOp.rmOp (pathJoin td n)] }
      refine ⟨w', [FsOp.cpOp (pathJoin td n) (pathJoin pr n),
        FsOp.rmOp (pathJoin td n)] ++ tr, ?_, ?_⟩
      · have hstep : movePhase td pr (n :: ns) w = movePhase td pr ns
            { w with
              root := w.root.filter (fun e => e.name != n) ++ [entry],
              tempContents := w.tempContents.filter (fun e => e.name != n),
              trace := w.trace ++ [FsOp.cpOp (pathJoin td n) (pathJoin pr n),
                FsOp.rmOp (pathJoin td n)] } := by
          simp [movePhase, bind_apply, fsCpTempToRoot, fsRmTempEntry, hf]
        rw [hstep, hrun]
      · rw [htr]; simp

theorem filter_keep_simplify (root : List Entry) :
    root.filter (fun e => filesToKeep.contains e.name ||
      !((root.map Entry.name).contains e.name)) =
    root.filter (fun e => filesToKeep.contains e.name) := by
  apply List.filter_congr
  intro e he
  have hm : e.name ∈ root.map Entry.name := List.mem_map_of_mem Entry.name he
  simp [hm]


theorem restoreBody_run_ok (f fp pr td : String) (w : World)
    (es : List Entry)
    (hex : w.extractOutcome = Except.ok es)
    (hrr : w.readdirRootFails = none)
    (hrt : w.readdirTempFails = none)
    (hnd : (es.map Entry.name).Nodup) :
    ∃ tr, restoreBody f fp pr td w =
      (Except.ok ⟨"info", "Archive '" ++ f ++
        "' loaded and extracted successfully to " ++ pr ++ "."⟩,
       { w with
         root := (w.root.filter (fun e =>
             filesToKeep.contains e.name)).filter (fun e =>
             !((es.map Entry.name).contains e.name)) ++ es,
         tempContents := [],
         trace := w.trace ++ tr }) := by
  obtain ⟨tr₁, hw⟩ := wipePhase_run pr (w.root.map Entry.name)
    { w with tempContents := es,
             trace := w.trace ++ [FsOp.extractOp fp td, FsOp.readdirOp pr] }
  obtain ⟨tr₂, hm⟩ := movePhase_run td pr (es.map Entry.name)
    { w with root := w.root.filter (fun e => filesToKeep.contains e.name ||
               !((w.root.map Entry.name).contains e.name)),
             tempContents := es,
             trace := w.trace ++ [FsOp.extractOp fp td, FsOp.readdirOp pr]
               ++ tr₁ ++ [FsOp.readdirOp td] }
    (by simp) hnd
  refine ⟨[FsOp.extractOp fp td, FsOp.readdirOp pr] ++ tr₁
    ++ [FsOp.readdirOp td] ++ tr₂, ?_⟩
  simp only [restoreBody, bind_apply, pure_apply, tarExtract, fsReaddirRoot,
    fsReaddirTemp, hex, hrr, hrt] at hw hm ⊢
  simp only [List.append_assoc, List.cons_append, List.nil_append,
    List.singleton_append] at hw hm ⊢
  rw [hw]
  simp only [List.append_assoc, List.cons_append, List.nil_append,
    List.singleton_append]
  rw [hm]
  rw [filter_keep_simplify]


theorem restoreBody_err_extract (f fp pr td : String) (w : World)
    (msg : String) (hex : w.extractOutcome = Except.error msg) :
    restoreBody f fp pr td w =
      (Except.error msg,
       { w with trace := w.trace ++ [FsOp.extractOp fp td] }) := by
  simp [restoreBody, bind_apply, tarExtract, hex]

theorem restoreBody_err_readdirRoot (f fp pr td : String) (w : World)
    (es : List Entry) (m : String)
    (hex : w.extractOutcome = Except.ok es)
    (hrr : w.readdirRootFails = some m) :
    restoreBody f fp pr td w =
      (Except.error m,
       { w with tempContents := es,
                trace := w.trace ++ [FsOp.extractOp fp td,
                  FsOp.readdirOp pr] }) := by
  simp [restoreBody, bind_apply, tarExtract, fsReaddirRoot, hex, hrr]

theorem restoreBody_err_readdirTemp (f fp pr td : String) (w : World)
    (es : List Entry) (m : String)
    (hex : w.extractOutcome = Except.ok es)
    (hrr : w.readdirRootFails = none)
    (hrt : w.readdirTempFails = some m) :
    ∃ w', restoreBody f fp pr td w = (Except.error m, w') ∧
      ∃ tr, w'.trace = w.trace ++ (FsOp.extractOp fp td :: tr) := by
  obtain ⟨tr₁, hw⟩ := wipePhase_run pr (w.root.map Entry.name)
    { w with tempContents := es,
             trace := w.trace ++ [FsOp.extractOp fp td, FsOp.readdirOp pr] }
  simp only [hex, hrr, hrt, List.append_assoc, List.cons_append,
    List.nil_append, List.singleton_append] at hw
  refine ⟨{ w with
    root := w.root.filter (fun e => filesToKeep.contains e.name ||
      !((w.root.map Entry.name).contains e.name)),
    tempContents := es,
    trace := w.trace ++ FsOp.extractOp fp td :: FsOp.readdirOp pr ::
      (tr₁ ++ [FsOp.readdirOp td]) }, ?_, ?_⟩
  · simp only [restoreBody, bind_apply, pure_apply, tarExtract,
      fsReaddirRoot, fsReaddirTemp, hex, hrr, hrt]
    simp only [List.append_assoc, List.cons_append, List.nil_append,
      List.singleton_append]
    rw [hw]
    simp [List.append_assoc]
  · refine ⟨FsOp.readdirOp pr :: (tr₁ ++ [FsOp.readdirOp td]), ?_⟩
    simp

theorem restoreBody_ok_shape (f fp pr td : String) (w : World)
    (es : List Entry)
    (hex : w.extractOutcome = Except.ok es)
    (hrr : w.readdirRootFails = none)
    (hrt : w.readdirTempFails = none) :
    ∃ w', restoreBody f fp pr td w =
      (Except.ok ⟨"info", "Archive '" ++ f ++
        "' loaded and extracted successfully to " ++ pr ++ "."⟩, w') ∧
      ∃ tr, w'.trace = w.trace ++ (FsOp.extractOp fp td :: tr) := by
  obtain ⟨tr₁, hw⟩ := wipePhase_run pr (w.root.map Entry.name)
    { w with tempContents := es,
             trace := w.trace ++ [FsOp.extractOp fp td, FsOp.readdirOp pr] }
  simp only [hex, hrr, hrt, List.append_assoc, List.cons_append,
    List.nil_append, List.singleton_append] at hw
  obtain ⟨w₅, tr₂, hmv, htr⟩ := movePhase_ok td pr (es.map Entry.name)
    { w with root := w.root.filter (fun e => filesToKeep.contains e.name ||
               !((w.root.map Entry.name).contains e.name)),
             tempContents := es,
             trace := w.trace ++ FsOp.extractOp fp td :: FsOp.readdirOp pr ::
               (tr₁ ++ [FsOp.readdirOp td]) }
  simp only [hex, hrr, hrt] at hmv htr
  refine ⟨w₅, ?_, ?_⟩
  · simp only [restoreBody, bind_apply, pure_apply, tarExtract,
      fsReaddirRoot, fsReaddirTemp, hex, hrr, hrt]
    simp only [List.append_assoc, List.cons_append, List.nil_append,
      List.singleton_append]
    rw [hw]
    simp only [List.append_assoc, List.cons_append, List.nil_append,
      List.singleton_append]
    rw [hmv]
  · refine ⟨FsOp.readdirOp pr :: (tr₁ ++ FsOp.readdirOp td :: tr₂), ?_⟩
    rw [htr]
    simp


theorem tryFinally_rm {α : Type} (x : M α) (td : String) (w : World)
    (r : Except String α) (wx : World) (hx : x w = (r, wx)) :
    M.tryFinally x (fsRmTempDir td) w =
      (r, { wx with tempExists := false,
                    tempContents := [],
                    trace := wx.trace ++ [FsOp.rmOp td] }) := by
  cases r <;> simp [M.tryFinally, fsRmTempDir, hx]

theorem restoreWithForce_outcome (f fp pr : String) (w : World) :
    ∃ res w', restoreWithForce f fp pr w = (res, w') ∧
      w'.tempExists = false ∧
      (∀ m, res = Except.ok m → m = ⟨"info", "Archive '" ++ f ++
        "' loaded and extracted successfully to " ++ pr ++ "."⟩) ∧
      FsOp.extractOp fp (pathJoin osTmpdir "gemini-cli-load-" ++ "XXXXXX")
        ∈ w'.trace := by
  have hrw : restoreWithForce f fp pr w =
      M.tryFinally
        (restoreBody f fp pr (pathJoin osTmpdir "gemini-cli-load-" ++
          "XXXXXX"))
        (fsRmTempDir (pathJoin osTmpdir "gemini-cli-load-" ++ "XXXXXX"))
        { w with tempExists := true,
                 tempContents := [],
                 trace := w.trace ++
                   [FsOp.mkdtempOp (pathJoin osTmpdir "gemini-cli-load-")] }
      := by
    simp [restoreWithForce, bind_apply, fsMkdtemp]
  cases hoc : w.extractOutcome with
  | error msg =>
    have hb := restoreBody_err_extract f fp pr
      (pathJoin osTmpdir "gemini-cli-load-" ++ "XXXXXX")
      { w with tempExists := true,
               tempContents := [],
               trace := w.trace ++
                 [FsOp.mkdtempOp (pathJoin osTmpdir "gemini-cli-load-")] }
      msg (by simp [hoc])
    rw [hrw, tryFinally_rm _ _ _ _ _ hb]
    refine ⟨_, _, rfl, by simp, by simp, by simp⟩
  | ok es =>
    cases hrr : w.readdirRootFails with
    | some m =>
      have hb := restoreBody_err_readdirRoot f fp pr
        (pathJoin osTmpdir "gemini-cli-load-" ++ "XXXXXX")
        { w with tempExists := true,
                 tempContents := [],
                 trace := w.trace ++
                   [FsOp.mkdtempOp (pathJoin osTmpdir "gemini-cli-load-")] }
        es m (by simp [hoc]) (by simp [hrr])
      rw [hrw, tryFinally_rm _ _ _ _ _ hb]
      refine ⟨_, _, rfl, by simp, by simp, by simp⟩
    | none =>
      cases hrt : w.readdirTempFails with
      | some m =>
        obtain ⟨w', hb, tr, htr⟩ := restoreBody_err_readdirTemp f fp pr
          (pathJoin osTmpdir "gemini-cli-load-" ++ "XXXXXX")
          { w with tempExists := true,
                   tempContents := [],
                   trace := w.trace ++
                     [FsOp.mkdtempOp (pathJoin osTmpdir "gemini-cli-load-")] }
          es m (by simp [hoc]) (by simp [hrr]) (by simp [hrt])
        rw [hrw, tryFinally_rm _ _ _ _ _ hb]
        refine ⟨_, _, rfl, by simp, by simp, ?_⟩
        simp [htr]
      | none =>
        obtain ⟨w', hb, tr, htr⟩ := restoreBody_ok_shape f fp pr
          (pathJoin osTmpdir "gemini-cli-load-" ++ "XXXXXX")
          { w with tempExists := true,
                   tempContents := [],
                   trace := w.trace ++
                     [FsOp.mkdtempOp (pathJoin osTmpdir "gemini-cli-load-")] }
          es (by simp [hoc]) (by simp [hrr]) (by simp [hrt])
        rw [hrw, tryFinally_rm _ _ _ _ _ hb]
        refine ⟨_, _, rfl, by simp, ?_, ?_⟩
        · intro m hm
          simpa using hm.symm
        · simp [htr]


theorem loadAction_restore_reduce (cfg : Config) (tdir r : String)
    (fmt : Int → String) (args f : String) (w : World)
    (h1 : cfg.projectTempDir = some tdir)
    (h2 : cfg.projectRoot = some r) (hr : r ≠ "")
    (h3 : w.mkdirFails = none)
    (h4 : parseArgs args = (f, true))
    (h5 : f ≠ "")
    (h6 : strEndsWith f ".tar.gz" = true) :
    loadAction (some cfg) fmt args w =
      M.tryCatch
        (restoreWithForce f (pathJoin (pathJoin tdir ARCHIVES_DIR_NAME) f) r)
        (fun e => pure ⟨"error",
          "Error loading archive " ++ f ++ ": " ++ e⟩)
        { w with archivesDirExists := true,
                 trace := w.trace ++
                   [FsOp.mkdirOp (pathJoin tdir ARCHIVES_DIR_NAME)] } := by
  simp [loadAction, getArchivesDir, fsMkdirRecursive, bind_apply, pure_apply,
    h1, h2, h3, h4, h5, h6, hr]

theorem loadAction_noforce_reduce (cfg : Config) (tdir r : String)
    (fmt : Int → String) (args f : String) (w : World)
    (h1 : cfg.projectTempDir = some tdir)
    (h2 : cfg.projectRoot = some r) (hr : r ≠ "")
    (h3 : w.mkdirFails = none)
    (h4 : parseArgs args = (f, false))
    (h5 : f ≠ "")
    (h6 : strEndsWith f ".tar.gz" = true) :
    loadAction (some cfg) fmt args w =
      (Except.ok ⟨"error", noForceMessage f r⟩,
       { w with archivesDirExists := true,
                trace := w.trace ++
                  [FsOp.mkdirOp (pathJoin tdir ARCHIVES_DIR_NAME)] }) := by
  simp [loadAction, getArchivesDir, fsMkdirRecursive, M.tryCatch, bind_apply,
    pure_apply, h1, h2, h3, h4, h5, h6, hr]

theorem loadAction_legacy_reduce (cfg : Config) (tdir : String)
    (fmt : Int → String) (args f : String) (force : Bool) (w : World)
    (h1 : cfg.projectTempDir = some tdir)
    (h3 : w.mkdirFails = none)
    (h4 : parseArgs args = (f, force))
    (h5 : f ≠ "")
    (h6 : strEndsWith f ".tar.gz" = false) :
    loadAction (some cfg) fmt args w =
      M.tryCatch
        (legacyBranch f (pathJoin (pathJoin tdir ARCHIVES_DIR_NAME) f))
        (fun e => pure ⟨"error",
          "Error loading archive " ++ f ++ ": " ++ e⟩)
        { w with archivesDirExists := true,
                 trace := w.trace ++
                   [FsOp.mkdirOp (pathJoin tdir ARCHIVES_DIR_NAME)] } := by
  simp [loadAction, getArchivesDir, fsMkdirRecursive, bind_apply, pure_apply,
    h1, h3, h4, h5, h6]


theorem restoreWithForce_err (f fp pr : String) (w : World)
    (h : (∃ msg, w.extractOutcome = Except.error msg) ∨
         (∃ m, w.readdirRootFails = some m) ∨
         (∃ m, w.readdirTempFails = some m)) :
    ∃ e w', restoreWithForce f fp pr w = (Except.error e, w') ∧
      w'.tempExists = false := by
  have hrw : restoreWithForce f fp pr w =
      M.tryFinally
        (restoreBody f fp pr (pathJoin osTmpdir "gemini-cli-load-" ++
          "XXXXXX"))
        (fsRmTempDir (pathJoin osTmpdir "gemini-cli-load-" ++ "XXXXXX"))
        { w with tempExists := true,
                 tempContents := [],
                 trace := w.trace ++
                   [FsOp.mkdtempOp (pathJoin osTmpdir "gemini-cli-load-")] }
      := by
    simp [restoreWithForce, bind_apply, fsMkdtemp]
  rcases h with ⟨msg, hex⟩ | ⟨m, hrr⟩ | ⟨m, hrt⟩
  · have hb := restoreBody_err_extract f fp pr
      (pathJoin osTmpdir "gemini-cli-load-" ++ "XXXXXX")
      { w with tempExists := true,
               tempContents := [],
               trace := w.trace ++
                 [FsOp.mkdtempOp (pathJoin osTmpdir "gemini-cli-load-")] }
      msg (by simp [hex])
    rw [hrw, tryFinally_rm _ _ _ _ _ hb]
    exact ⟨msg, _, rfl, by simp⟩
  · cases hoc : w.extractOutcome with
    | error msg =>
      have hb := restoreBody_err_extract f fp pr
        (pathJoin osTmpdir "gemini-cli-load-" ++ "XXXXXX")
        { w with tempExists := true,
                 tempContents := [],
                 trace := w.trace ++
                   [FsOp.mkdtempOp (pathJoin osTmpdir "gemini-cli-load-")] }
        msg (by simp [hoc])
      rw [hrw, tryFinally_rm _ _ _ _ _ hb]
      exact ⟨msg, _, rfl, by simp⟩
    | ok es =>
      have hb := restoreBody_err_readdirRoot f fp pr
        (pathJoin osTmpdir "gemini-cli-load-" ++ "XXXXXX")
        { w with tempExists := true,
                 tempContents := [],
                 trace := w.trace ++
                   [FsOp.mkdtempOp (pathJoin osTmpdir "gemini-cli-load-")] }
        es m (by simp [hoc]) (by simp [hrr])
      rw [hrw, tryFinally_rm _ _ _ _ _ hb]
      exact ⟨m, _, rfl, by simp⟩
  · cases hoc : w.extractOutcome with
    | error msg =>
      have hb := restoreBody_err_extract f fp pr
        (pathJoin osTmpdir "gemini-cli-load-" ++ "XXXXXX")
        { w with tempExists := true,
                 tempContents := [],
                 trace := w.trace ++
                   [FsOp.mkdtempOp (pathJoin osTmpdir "gemini-cli-load-")] }
        msg (by simp [hoc])
      rw [hrw, tryFinally_rm _ _ _ _ _ hb]
      exact ⟨msg, _, rfl, by simp⟩
    | ok es =>
      cases hrr : w.readdirRootFails with
      | some m2 =>
        have hb := restoreBody_err_readdirRoot f fp pr
          (pathJoin osTmpdir "gemini-cli-load-" ++ "XXXXXX")
          { w with tempExists := true,
                   tempContents := [],
                   trace := w.trace ++
                     [FsOp.mkdtempOp (pathJoin osTmpdir "gemini-cli-load-")] }
          es m2 (by simp [hoc]) (by simp [hrr])
        rw [hrw, tryFinally_rm _ _ _ _ _ hb]
        exact ⟨m2, _, rfl, by simp⟩
      | none =>
        obtain ⟨w', hb, tr, htr⟩ := restoreBody_err_readdirTemp f fp pr
          (pathJoin osTmpdir "gemini-cli-load-" ++ "XXXXXX")
          { w with tempExists := true,
                   tempContents := [],
                   trace := w.trace ++
                     [FsOp.mkdtempOp (pathJoin osTmpdir "gemini-cli-load-")] }
          es m (by simp [hoc]) (by simp [hrr]) (by simp [hrt])
        rw [hrw, tryFinally_rm _ _ _ _ _ hb]
        exact ⟨m, _, rfl, by simp⟩

theorem restoreWithForce_run_ok (f fp pr : String) (w : World)
    (es : List Entry)
    (hex : w.extractOutcome = Except.ok es)
    (hrr : w.readdirRootFails = none)
    (hrt : w.readdirTempFails = none)
    (hnd : (es.map Entry.name).Nodup) :
    ∃ tr, restoreWithForce f fp pr w =
      (Except.ok ⟨"info", "Archive '" ++ f ++
        "' loaded and extracted successfully to " ++ pr ++ "."⟩,
       { w with
         root := (w.root.filter (fun e =>
             filesToKeep.contains e.name)).filter (fun e =>
             !((es.map Entry.name).contains e.name)) ++ es,
         tempExists := false,
         tempContents := [],
         trace := w.trace ++ tr }) := by
  have hrw : restoreWithForce f fp pr w =
      M.tryFinally
        (restoreBody f fp pr (pathJoin osTmpdir "gemini-cli-load-" ++
          "XXXXXX"))
        (fsRmTempDir (pathJoin osTmpdir "gemini-cli-load-" ++ "XXXXXX"))
        { w with tempExists := true,
                 tempContents := [],
                 trace := w.trace ++
                   [FsOp.mkdtempOp (pathJoin osTmpdir "gemini-cli-load-")] }
      := by
    simp [restoreWithForce, bind_apply, fsMkdtemp]
  obtain ⟨tr, hb⟩ := restoreBody_run_ok f fp pr
    (pathJoin osTmpdir "gemini-cli-load-" ++ "XXXXXX")
    { w with tempExists := true,
             tempContents := [],
             trace := w.trace ++
               [FsOp.mkdtempOp (pathJoin osTmpdir "gemini-cli-load-")] }
    es (by simp [hex]) (by simp [hrr]) (by simp [hrt]) hnd
  rw [hrw, tryFinally_rm _ _ _ _ _ hb]
  refine ⟨FsOp.mkdtempOp (pathJoin osTmpdir "gemini-cli-load-") ::
    (tr ++ [FsOp.rmOp (pathJoin osTmpdir "gemini-cli-load-" ++
      "XXXXXX")]), ?_⟩
  simp


/-- Claim C1: for every restore-mode invocation on a `.tar.gz` filename with
the force flag, after the handler returns the temporary extraction directory
no longer exists on every exit path; and whenever the handler reports
success ("info"), every pre-existing top-level project-root entry not on the
keep-list `.git`/`node_modules`/`archives` has been removed, and every
top-level entry of the extracted temp directory is present at the project
root. -/
theorem claim1_restore_force_wipe_move_cleanup
    (cfg : Config) (tdir r : String) (fmt : Int → String)
    (args f : String) (w : World)
    (h1 : cfg.projectTempDir = some tdir)
    (h2 : cfg.projectRoot = some r) (hr : r ≠ "")
    (h3 : w.mkdirFails = none)
    (h4 : parseArgs args = (f, true))
    (h5 : f ≠ "")
    (h6 : strEndsWith f ".tar.gz" = true)
    (h7 : match w.extractOutcome with
      | Except.error _ => True
      | Except.ok es => (es.map Entry.name).Nodup ∧
          ∀ x ∈ es, ∀ y ∈ w.root, x.blob ≠ y.blob) :
    (loadAction (some cfg) fmt args w).2.tempExists = false ∧
    (∀ m, (loadAction (some cfg) fmt args w).1 = Except.ok m →
      m.messageType = "info" →
      (∀ e ∈ w.root, filesToKeep.contains e.name = false →
        e ∉ (loadAction (some cfg) fmt args w).2.root) ∧
      (∀ es, w.extractOutcome = Except.ok es →
        ∀ x ∈ es, x ∈ (loadAction (some cfg) fmt args w).2.root)) := by
  cases hoc : w.extractOutcome with
  | error msg =>
    rw [loadAction_restore_reduce cfg tdir r fmt args f w h1 h2 hr h3 h4 h5
      h6]
    obtain ⟨e, w', hres, htf⟩ := restoreWithForce_err f
      (pathJoin (pathJoin tdir ARCHIVES_DIR_NAME) f) r
      { w with archivesDirExists := true,
               trace := w.trace ++
                 [FsOp.mkdirOp (pathJoin tdir ARCHIVES_DIR_NAME)] }
      (Or.inl ⟨msg, by simp [hoc]⟩)
    constructor
    · simp [M.tryCatch, hres, pure_apply, htf]
    · intro m hm hmt
      simp [M.tryCatch, hres, pure_apply] at hm
      rw [← hm] at hmt
      have hmt' : ("error" : String) = "info" := hmt
      exact absurd hmt' (by decide)
  | ok es =>
    have h7' : (es.map Entry.name).Nodup ∧
        ∀ x ∈ es, ∀ y ∈ w.root, x.blob ≠ y.blob := by
      rw [hoc] at h7
      exact h7
    cases hrr : w.readdirRootFails with
    | some m2 =>
      rw [loadAction_restore_reduce cfg tdir r fmt args f w h1 h2 hr h3 h4 h5
        h6]
      obtain ⟨e, w', hres, htf⟩ := restoreWithForce_err f
        (pathJoin (pathJoin tdir ARCHIVES_DIR_NAME) f) r
        { w with archivesDirExists := true,
                 trace := w.trace ++
                   [FsOp.mkdirOp (pathJoin tdir ARCHIVES_DIR_NAME)] }
        (Or.inr (Or.inl ⟨m2, by simp [hrr]⟩))
      constructor
      · simp [M.tryCatch, hres, pure_apply, htf]
      · intro m hm hmt
        simp [M.tryCatch, hres, pure_apply] at hm
        rw [← hm] at hmt
        have hmt' : ("error" : String) = "info" := hmt
        exact absurd hmt' (by decide)
    | none =>
      cases hrt : w.readdirTempFails with
      | some m2 =>
        rw [loadAction_restore_reduce cfg tdir r fmt args f w h1 h2 hr h3 h4
          h5 h6]
        obtain ⟨e, w', hres, htf⟩ := restoreWithForce_err f
          (pathJoin (pathJoin tdir ARCHIVES_DIR_NAME) f) r
          { w with archivesDirExists := true,
                   trace := w.trace ++
                     [FsOp.mkdirOp (pathJoin tdir ARCHIVES_DIR_NAME)] }
          (Or.inr (Or.inr ⟨m2, by simp [hrt]⟩))
        constructor
        · simp [M.tryCatch, hres, pure_apply, htf]
        · intro m hm hmt
          simp [M.tryCatch, hres, pure_apply] at hm
          rw [← hm] at hmt
          have hmt' : ("error" : String) = "info" := hmt
          exact absurd hmt' (by decide)
      | none =>
        rw [loadAction_restore_reduce cfg tdir r fmt args f w h1 h2 hr h3 h4
          h5 h6]
        obtain ⟨tr, hres⟩ := restoreWithForce_run_ok f
          (pathJoin (pathJoin tdir ARCHIVES_DIR_NAME) f) r
          { w with archivesDirExists := true,
                   trace := w.trace ++
                     [FsOp.mkdirOp (pathJoin tdir ARCHIVES_DIR_NAME)] }
          es (by simp [hoc]) (by simp [hrr]) (by simp [hrt]) h7'.1
        constructor
        · simp [M.tryCatch, hres]
        · intro m hm hmt
          constructor
          · intro e he hkeep
            simp only [M.tryCatch, hres]
            simp only [List.mem_append, not_or]
            constructor
            · intro hmem
              have h1f := (List.mem_filter.mp hmem).1
              have h2f := (List.mem_filter.mp h1f).2
              rw [hkeep] at h2f
              exact absurd h2f (by decide)
            · intro hmem
              exact absurd rfl (h7'.2 e hmem e he)
          · intro es' hes' x hx
            injection hes' with hes''
            subst hes''
            simp only [M.tryCatch, hres]
            simp only [List.mem_append]
            right
            exact hx


theorem isPrefixOf_self_append : ∀ (p l : List Char),
    p.isPrefixOf (p ++ l) = true
  | [], _ => by simp [List.isPrefixOf]
  | c :: cs, l => by
    simp [List.isPrefixOf, isPrefixOf_self_append cs l]

theorem containsSeq_mid (p l₁ l₂ : List Char) :
    containsSeq p (l₁ ++ (p ++ l₂)) = true := by
  induction l₁ with
  | nil =>
    cases p with
    | nil => cases l₂ <;> simp [containsSeq, List.isPrefixOf]
    | cons c cs => simp [containsSeq, isPrefixOf_self_append]
  | cons c l₁ ih =>
    cases hpl : p ++ (l₁ ++ (p ++ l₂)) with
    | nil => simp [containsSeq, ih]
    | cons d t => simp [containsSeq, ih]

theorem strIncludes_of_split (x y p : String) :
    strIncludes (x ++ (p ++ y)) p = true := by
  have hd : (x ++ (p ++ y)).data = x.data ++ (p.data ++ y.data) := rfl
  rw [strIncludes, hd]
  exact containsSeq_mid p.data x.data y.data

theorem noForce_contains (f r : String) :
    strIncludes (noForceMessage f r) ("/load " ++ f ++ " --force") = true := by
  have hsplit : noForceMessage f r =
      ("Loading '" ++ f ++
        "' will overwrite the contents of your current project directory ("
        ++ r ++
        "). This is a destructive operation. To proceed, please run the command again with the '--force' flag (e.g., ")
      ++ (("/load " ++ f ++ " --force") ++ ").") := by
    have h1 : ("). This is a destructive operation. To proceed, please run the command again with the '--force' flag (e.g., /load " : String) =
        "). This is a destructive operation. To proceed, please run the command again with the '--force' flag (e.g., "
        ++ "/load " := by decide
    have h2 : (" --force)." : String) = " --force" ++ ")." := by decide
    rw [noForceMessage, h1, h2]
    simp only [String.append_assoc]
  rw [hsplit]
  exact strIncludes_of_split _ _ _


theorem claim1_witness :
    (loadAction (some cfgTest) fmtDateTest
      "test-project-archive-20250101-120000.tar.gz --force"
      wRestoreTest).2.tempExists = false ∧
    (∀ m, (loadAction (some cfgTest) fmtDateTest
        "test-project-archive-20250101-120000.tar.gz --force"
        wRestoreTest).1 = Except.ok m →
      m.messageType = "info" →
      (∀ e ∈ wRestoreTest.root, filesToKeep.contains e.name = false →
        e ∉ (loadAction (some cfgTest) fmtDateTest
          "test-project-archive-20250101-120000.tar.gz --force"
          wRestoreTest).2.root) ∧
      (∀ es, wRestoreTest.extractOutcome = Except.ok es →
        ∀ x ∈ es, x ∈ (loadAction (some cfgTest) fmtDateTest
          "test-project-archive-20250101-120000.tar.gz --force"
          wRestoreTest).2.root)) :=
  claim1_restore_force_wipe_move_cleanup cfgTest "/mock/tmp"
    "/mock/path/test-project" fmtDateTest
    "test-project-archive-20250101-120000.tar.gz --force"
    "test-project-archive-20250101-120000.tar.gz" wRestoreTest
    (by decide) (by decide) (by decide) (by decide) (by decide) (by decide)
    (by decide)
    (by
      rw [show wRestoreTest.extractOutcome =
        Except.ok [⟨"main.ts", 10⟩] from rfl]
      decide)

/-- Claim C2 counterexample: on a world where the archives directory does
not yet exist, a `.tar.gz` load without `--force` is not free of filesystem
mutations — the handler's unconditional `mkdir -p` creates the archives
directory before the force check. -/
theorem claim2_counterexample :
    wFresh.archivesDirExists = false ∧
    (loadAction (some cfgTest) fmtDateTest "x.tar.gz"
      wFresh).2.archivesDirExists = true := by
  decide

/-- Claim C2 (amended): a `.tar.gz` restore without the force flag performs
no filesystem mutation beyond idempotently creating the archives directory
(which precedes mode selection); the project root, temp state and metadata
are untouched (the returned world differs from the input only in
`archivesDirExists` and the `mkdir` trace entry), and the returned error
message contains the literal re-invocation suggestion
`/load <filename> --force`. -/
theorem claim2_amended (cfg : Config) (tdir r : String) (fmt : Int → String)
    (args f : String) (w : World)
    (h1 : cfg.projectTempDir = some tdir)
    (h2 : cfg.projectRoot = some r) (hr : r ≠ "")
    (h3 : w.mkdirFails = none)
    (h4 : parseArgs args = (f, false))
    (h5 : f ≠ "")
    (h6 : strEndsWith f ".tar.gz" = true) :
    loadAction (some cfg) fmt args w =
      (Except.ok ⟨"error", noForceMessage f r⟩,
       { w with archivesDirExists := true,
                trace := w.trace ++
                  [FsOp.mkdirOp (pathJoin tdir ARCHIVES_DIR_NAME)] }) ∧
    strIncludes (noForceMessage f r) ("/load " ++ f ++ " --force") = true :=
  ⟨loadAction_noforce_reduce cfg tdir r fmt args f w h1 h2 hr h3 h4 h5 h6,
   noForce_contains f r⟩

theorem claim2_witness :
    loadAction (some cfgTest) fmtDateTest "x.tar.gz" wFresh =
      (Except.ok ⟨"error",
        noForceMessage "x.tar.gz" "/mock/path/test-project"⟩,
       { wFresh with
         archivesDirExists := true,
         trace := wFresh.trace ++
           [FsOp.mkdirOp (pathJoin "/mock/tmp" ARCHIVES_DIR_NAME)] }) ∧
    strIncludes (noForceMessage "x.tar.gz" "/mock/path/test-project")
      ("/load " ++ "x.tar.gz" ++ " --force") = true :=
  claim2_amended cfgTest "/mock/tmp" "/mock/path/test-project" fmtDateTest
    "x.tar.gz" "x.tar.gz" wFresh (by decide) (by decide) (by decide)
    (by decide) (by decide) (by decide) (by decide)


theorem legacyBranch_msgtype (f fp : String) (w : World)
    (m : MessageResult) (w' : World)
    (h : legacyBranch f fp w = (Except.ok m, w')) :
    m.messageType = "info" ∨ m.messageType = "error" := by
  cases hlo : w.legacyOutcome with
  | error e =>
    simp [legacyBranch, bind_apply, fsReadLegacy, hlo] at h
  | ok doc =>
    cases hh : doc.history with
    | none =>
      cases hch : doc.clientHistory with
      | none =>
        simp [legacyBranch, legacyTail, bind_apply, pure_apply,
          fsReadLegacy, hlo, hh, hch] at h
        left
        rw [← h.1]
      | some v =>
        by_cases hv : v.truthy = true
        · cases hca : w.clientAvailable <;>
            (simp [legacyBranch, legacyTail, bind_apply, pure_apply,
              fsReadLegacy, clientSetHistoryMaybe, hlo, hh, hch, hv,
              hca] at h
             left
             rw [← h.1])
        · simp [legacyBranch, legacyTail, bind_apply, pure_apply,
            fsReadLegacy, hlo, hh, hch, hv] at h
          left
          rw [← h.1]
    | some v =>
      by_cases hv : v.truthy = true
      · cases ha : w.uiHasLoadHistory with
        | false =>
          simp [legacyBranch, bind_apply, pure_apply, fsReadLegacy,
            uiLoadHistoryAvailable, hlo, hh, hv, ha] at h
          right
          rw [← h.1]
        | true =>
          cases hch : doc.clientHistory with
          | none =>
            simp [legacyBranch, legacyTail, bind_apply, pure_apply,
              fsReadLegacy, uiLoadHistoryAvailable, uiLoadHistory,
              hlo, hh, hv, ha, hch] at h
            left
            rw [← h.1]
          | some v2 =>
            by_cases hv2 : v2.truthy = true
            · cases hca : w.clientAvailable <;>
                (simp [legacyBranch, legacyTail, bind_apply, pure_apply,
                  fsReadLegacy, uiLoadHistoryAvailable, uiLoadHistory,
                  clientSetHistoryMaybe, hlo, hh, hv, ha, hch, hv2,
                  hca] at h
                 left
                 rw [← h.1])
            · simp [legacyBranch, legacyTail, bind_apply, pure_apply,
                fsReadLegacy, uiLoadHistoryAvailable, uiLoadHistory,
                hlo, hh, hv, ha, hch, hv2] at h
              left
              rw [← h.1]
      · cases hch : doc.clientHistory with
        | none =>
          simp [legacyBranch, legacyTail, bind_apply, pure_apply,
            fsReadLegacy, hlo, hh, hv, hch] at h
          left
          rw [← h.1]
        | some v2 =>
          by_cases hv2 : v2.truthy = true
          · cases hca : w.clientAvailable <;>
              (simp [legacyBranch, legacyTail, bind_apply, pure_apply,
                fsReadLegacy, clientSetHistoryMaybe, hlo, hh, hv, hch,
                hv2, hca] at h
               left
               rw [← h.1])
          · simp [legacyBranch, legacyTail, bind_apply, pure_apply,
              fsReadLegacy, hlo, hh, hv, hch, hv2] at h
            left
            rw [← h.1]


/-- Claim C3 counterexample: when `fs.mkdir` of the archives directory
throws (here with message `EACCES`), the exception escapes both the load
handler and the save handler instead of being converted to a structured
message — `getArchivesDir` is awaited outside every `try` block. -/
theorem claim3_counterexample :
    (loadAction (some cfgTest) fmtDateTest "" wMkdirFail).1 =
      Except.error "EACCES" ∧
    (saveAction (some cfgTest) 0 ⟨2025, 0, 1, 12, 0, 0⟩ ""
      wMkdirFail).1 = Except.error "EACCES" := by
  decide

/-- Claim C3 (amended): provided the archive-directory `mkdir` does not
throw, neither the save handler nor the load handler lets an exception
escape: every outcome is a structured message of type `info` or `error`.
(The unqualified claim fails: a `mkdir` exception escapes both handlers,
see the counterexample.) -/
theorem claim3_amended (cfgOpt : Option Config) (fmt : Int → String)
    (args : String) (ts : Int) (now : JSDate) (w : World)
    (hmk : w.mkdirFails = none) :
    okMessage (loadAction cfgOpt fmt args w) ∧
    okMessage (saveAction cfgOpt ts now args w) := by
  constructor
  · cases cfgOpt with
    | none => exact ⟨_, rfl, Or.inr rfl⟩
    | some cfg =>
      cases htd : cfg.projectTempDir with
      | none =>
        simp only [loadAction, getArchivesDir, bind_apply, pure_apply, htd]
        exact ⟨_, rfl, Or.inr rfl⟩
      | some tdir =>
        rcases hpa : parseArgs args with ⟨f, force⟩
        by_cases hf : f = ""
        · subst hf
          cases hmo : w.metaOutcome with
          | enoent =>
            simp only [loadAction, getArchivesDir, fsMkdirRecursive,
              readArchiveMetadata, M.tryCatch, bind_apply, pure_apply,
              htd, hmk, hpa, hmo]
            exact ⟨_, rfl, Or.inl rfl⟩
          | readFailure m =>
            simp only [loadAction, getArchivesDir, fsMkdirRecursive,
              readArchiveMetadata, M.tryCatch, bind_apply, pure_apply,
              htd, hmk, hpa, hmo]
            exact ⟨_, rfl, Or.inr rfl⟩
          | parseFailure m =>
            simp only [loadAction, getArchivesDir, fsMkdirRecursive,
              readArchiveMetadata, M.tryCatch, bind_apply, pure_apply,
              htd, hmk, hpa, hmo]
            exact ⟨_, rfl, Or.inr rfl⟩
          | ok records =>
            by_cases hflt : (records.filter (fun archive =>
                strStartsWith archive.filename
                  (pathBasename (jsOrDefault cfg.projectRoot "project") ++
                    "-archive-"))).length = 0
            · simp only [loadAction, getArchivesDir, fsMkdirRecursive,
                readArchiveMetadata, M.tryCatch, bind_apply, pure_apply,
                htd, hmk, hpa, hmo, reduceIte, hflt, if_true]
              exact ⟨_, rfl, Or.inl rfl⟩
            · simp only [loadAction, getArchivesDir, fsMkdirRecursive,
                readArchiveMetadata, M.tryCatch, bind_apply, pure_apply,
                htd, hmk, hpa, hmo, reduceIte, hflt, if_false]
              exact ⟨_, rfl, Or.inl rfl⟩
        · cases h6 : strEndsWith f ".tar.gz" with
          | true =>
            cases hpr : cfg.projectRoot with
            | none =>
              simp only [loadAction, getArchivesDir, fsMkdirRecursive,
                M.tryCatch, bind_apply, pure_apply, htd, hmk, hpa, hpr,
                hf, h6]
              simp [hf]
              exact ⟨_, rfl, Or.inr rfl⟩
            | some r =>
              by_cases hr : r = ""
              · subst hr
                simp only [loadAction, getArchivesDir, fsMkdirRecursive,
                  M.tryCatch, bind_apply, pure_apply, htd, hmk, hpa, hpr,
                  hf, h6]
                simp [hf]
                exact ⟨_, rfl, Or.inr rfl⟩
              · cases force with
                | false =>
                  rw [loadAction_noforce_reduce cfg tdir r fmt args f w htd
                    hpr hr hmk hpa hf h6]
                  exact ⟨_, rfl, Or.inr rfl⟩
                | true =>
                  rw [loadAction_restore_reduce cfg tdir r fmt args f w htd
                    hpr hr hmk hpa hf h6]
                  obtain ⟨res, w', hres, -, hok, -⟩ :=
                    restoreWithForce_outcome f
                      (pathJoin (pathJoin tdir ARCHIVES_DIR_NAME) f) r
                      { w with archivesDirExists := true,
                               trace := w.trace ++
                                 [FsOp.mkdirOp
                                   (pathJoin tdir ARCHIVES_DIR_NAME)] }
                  cases res with
                  | ok m =>
                    have hm := hok m rfl
                    refine ⟨m, ?_, ?_⟩
                    · simp [M.tryCatch, hres]
                    · subst hm
                      exact Or.inl rfl
                  | error e =>
                    refine ⟨⟨"error",
                      "Error loading archive " ++ f ++ ": " ++ e⟩, ?_,
                      Or.inr rfl⟩
                    simp [M.tryCatch, hres, pure_apply]
          | false =>
            rw [loadAction_legacy_reduce cfg tdir fmt args f force w htd
              hmk hpa hf h6]
            rcases hlb : legacyBranch f
              (pathJoin (pathJoin tdir ARCHIVES_DIR_NAME) f)
              { w with archivesDirExists := true,
                       trace := w.trace ++
                         [FsOp.mkdirOp (pathJoin tdir ARCHIVES_DIR_NAME)] }
              with ⟨res, w'⟩
            cases res with
            | ok m =>
              refine ⟨m, ?_, legacyBranch_msgtype _ _ _ _ _ hlb⟩
              simp [M.tryCatch, hlb]
            | error e =>
              refine ⟨⟨"error",
                "Error loading archive " ++ f ++ ": " ++ e⟩, ?_,
                Or.inr rfl⟩
              simp [M.tryCatch, hlb, pure_apply]
  · cases cfgOpt with
    | none => exact ⟨_, rfl, Or.inr rfl⟩
    | some cfg =>
      cases htd : cfg.projectTempDir with
      | none =>
        simp only [saveAction, getArchivesDir, bind_apply, pure_apply, htd]
        exact ⟨_, rfl, Or.inr rfl⟩
      | some tdir =>
        cases hmo : w.metaOutcome with
        | readFailure m =>
          simp only [saveAction, getArchivesDir, fsMkdirRecursive,
            readArchiveMetadata, uiAddItem, M.tryCatch, bind_apply,
            pure_apply, htd, hmk, hmo]
          exact ⟨_, rfl, Or.inr rfl⟩
        | parseFailure m =>
          simp only [saveAction, getArchivesDir, fsMkdirRecursive,
            readArchiveMetadata, uiAddItem, M.tryCatch, bind_apply,
            pure_apply, htd, hmk, hmo]
          exact ⟨_, rfl, Or.inr rfl⟩
        | enoent =>
          cases htc : w.tarCreateFails with
          | some m =>
            simp only [saveAction, getArchivesDir, fsMkdirRecursive,
              readArchiveMetadata, uiAddItem, tarCreate, M.tryCatch,
              bind_apply, pure_apply, htd, hmk, hmo, htc]
            exact ⟨_, rfl, Or.inr rfl⟩
          | none =>
            cases hwm : w.writeMetaFails with
            | some m =>
              simp only [saveAction, getArchivesDir, fsMkdirRecursive,
                readArchiveMetadata, uiAddItem, tarCreate,
                writeArchiveMetadata, M.tryCatch, bind_apply, pure_apply,
                htd, hmk, hmo, htc, hwm]
              exact ⟨_, rfl, Or.inr rfl⟩
            | none =>
              simp only [saveAction, getArchivesDir, fsMkdirRecursive,
                readArchiveMetadata, uiAddItem, tarCreate,
                writeArchiveMetadata, M.tryCatch, bind_apply, pure_apply,
                htd, hmk, hmo, htc, hwm]
              exact ⟨_, rfl, Or.inl rfl⟩
        | ok records =>
          cases htc : w.tarCreateFails with
          | some m =>
            simp only [saveAction, getArchivesDir, fsMkdirRecursive,
              readArchiveMetadata, uiAddItem, tarCreate, M.tryCatch,
              bind_apply, pure_apply, htd, hmk, hmo, htc]
            exact ⟨_, rfl, Or.inr rfl⟩
          | none =>
            cases hwm : w.writeMetaFails with
            | some m =>
              simp only [saveAction, getArchivesDir, fsMkdirRecursive,
                readArchiveMetadata, uiAddItem, tarCreate,
                writeArchiveMetadata, M.tryCatch, bind_apply, pure_apply,
                htd, hmk, hmo, htc, hwm]
              exact ⟨_, rfl, Or.inr rfl⟩
            | none =>
              simp only [saveAction, getArchivesDir, fsMkdirRecursive,
                readArchiveMetadata, uiAddItem, tarCreate,
                writeArchiveMetadata, M.tryCatch, bind_apply, pure_apply,
                htd, hmk, hmo, htc, hwm]
              exact ⟨_, rfl, Or.inl rfl⟩

theorem claim3_witness :
    okMessage (loadAction (some cfgTest) fmtDateTest "" wBase) ∧
    okMessage (saveAction (some cfgTest) 0 ⟨2025, 0, 1, 12, 0, 0⟩ ""
      wBase) :=
  claim3_amended (some cfgTest) fmtDateTest "" 0 ⟨2025, 0, 1, 12, 0, 0⟩
    wBase (by decide)


/-- Claim C4 counterexample: an exception thrown by `fs.mkdir` inside
`getArchivesDir` propagates out of the completion provider instead of
yielding an empty suggestion list — the call sits outside the provider's
`try` block. -/
theorem claim4_counterexample :
    (completion (some cfgTest) wMkdirFail).1 = Except.error "EACCES" := by
  decide

/-- Claim C4 (amended): provided the archive-directory `mkdir` does not
throw, the completion provider never propagates an error (it always returns
a suggestion list), and any metadata read or parse failure yields the empty
list.  (The unqualified claim fails: a `mkdir` exception propagates, see the
counterexample.) -/
theorem claim4_amended (cfgOpt : Option Config) (w : World)
    (hmk : w.mkdirFails = none) :
    (∃ cands, (completion cfgOpt w).1 = Except.ok cands) ∧
    (∀ m, (w.metaOutcome = MetaOutcome.readFailure m ∨
           w.metaOutcome = MetaOutcome.parseFailure m) →
      (completion cfgOpt w).1 = Except.ok []) := by
  cases cfgOpt with
  | none => exact ⟨⟨[], rfl⟩, fun m _ => rfl⟩
  | some cfg =>
    cases htd : cfg.projectTempDir with
    | none =>
      constructor
      · exact ⟨[], by simp [completion, getArchivesDir, bind_apply,
          pure_apply, htd]⟩
      · intro m _
        simp [completion, getArchivesDir, bind_apply, pure_apply, htd]
    | some tdir =>
      cases hmo : w.metaOutcome with
      | enoent =>
        constructor
        · refine ⟨[], ?_⟩
          simp [completion, getArchivesDir, fsMkdirRecursive,
            readArchiveMetadata, listedRecords, jsSortByTimestampDesc,
            M.tryCatch, bind_apply, pure_apply, htd, hmk, hmo]
        · intro m hm
          rcases hm with h | h <;> exact absurd h (by simp)
      | readFailure m2 =>
        constructor
        · refine ⟨[], ?_⟩
          simp [completion, getArchivesDir, fsMkdirRecursive,
            readArchiveMetadata, M.tryCatch, bind_apply, pure_apply,
            htd, hmk, hmo]
        · intro m _
          simp [completion, getArchivesDir, fsMkdirRecursive,
            readArchiveMetadata, M.tryCatch, bind_apply, pure_apply,
            htd, hmk, hmo]
      | parseFailure m2 =>
        constructor
        · refine ⟨[], ?_⟩
          simp [completion, getArchivesDir, fsMkdirRecursive,
            readArchiveMetadata, M.tryCatch, bind_apply, pure_apply,
            htd, hmk, hmo]
        · intro m _
          simp [completion, getArchivesDir, fsMkdirRecursive,
            readArchiveMetadata, M.tryCatch, bind_apply, pure_apply,
            htd, hmk, hmo]
      | ok records =>
        constructor
        · refine ⟨(listedRecords
            (pathBasename (jsOrDefault cfg.projectRoot "project"))
            records).map (fun archive =>
              ⟨archive.filename, archive.filename, archive.description⟩),
            ?_⟩
          simp [completion, getArchivesDir, fsMkdirRecursive,
            readArchiveMetadata, M.tryCatch, bind_apply, pure_apply,
            htd, hmk, hmo]
        · intro m hm
          rcases hm with h | h <;> exact absurd h (by simp)

theorem claim4_witness :
    (∃ cands, (completion (some cfgTest) wBase).1 = Except.ok cands) ∧
    (∀ m, (wBase.metaOutcome = MetaOutcome.readFailure m ∨
           wBase.metaOutcome = MetaOutcome.parseFailure m) →
      (completion (some cfgTest) wBase).1 = Except.ok []) :=
  claim4_amended (some cfgTest) wBase (by decide)

/-- Claim C5: on the save handler's success path the produced filename is
`<project>-archive-<YYYYMMDD-HHMMSS>.tar.gz` built from the zero-padded
local-time clock fields, and the stored record's description is the trimmed
argument; concretely, saving description `"my important backup"` on project
`test-project` with the clock at 2025-01-01T12:00:00 local yields filename
`test-project-archive-20250101-120000.tar.gz` and a success message
containing `with description: "my important backup"`. -/
theorem claim5_save_filename_description
    (cfg : Config) (tdir : String) (ts : Int) (now : JSDate)
    (args : String) (records : List ArchiveMetadata) (w : World)
    (htd : cfg.projectTempDir = some tdir)
    (hmk : w.mkdirFails = none)
    (hmo : w.metaOutcome = MetaOutcome.ok records)
    (htc : w.tarCreateFails = none)
    (hwm : w.writeMetaFails = none) :
    ((saveAction (some cfg) ts now args w).2.writtenMetadata =
      some (records ++
        [⟨pathBasename (jsOrDefault cfg.projectRoot "project") ++
          "-archive-" ++ formattedTimestamp now ++ ".tar.gz", ts,
          jsTrim args⟩]) ∧
    (saveAction (some cfg) ts now args w).1 =
      Except.ok ⟨"info", "Archive created at: " ++
        pathJoin (pathJoin tdir ARCHIVES_DIR_NAME)
          (pathBasename (jsOrDefault cfg.projectRoot "project") ++
            "-archive-" ++ formattedTimestamp now ++ ".tar.gz") ++
        (if jsTrim args = "" then ""
         else " with description: \"" ++ jsTrim args ++ "\"")⟩ ∧
    formattedTimestamp now =
      toString now.getFullYear ++ padZero2 (toString (now.getMonth + 1)) ++
      padZero2 (toString now.getDate) ++ "-" ++
      padZero2 (toString now.getHours) ++
      padZero2 (toString now.getMinutes) ++
      padZero2 (toString now.getSeconds)) ∧
    ((saveAction (some cfgTest) 1735732800000 ⟨2025, 0, 1, 12, 0, 0⟩
      "my important backup" wBase).2.writtenMetadata =
      some [⟨"test-project-archive-20250101-120000.tar.gz", 1735732800000,
        "my important backup"⟩] ∧
    ∃ c, (saveAction (some cfgTest) 1735732800000 ⟨2025, 0, 1, 12, 0, 0⟩
        "my important backup" wBase).1 = Except.ok ⟨"info", c⟩ ∧
      strIncludes c "with description: \"my important backup\"" = true) := by
  constructor
  · refine ⟨?_, ?_, rfl⟩
    · simp [saveAction, getArchivesDir, fsMkdirRecursive,
        readArchiveMetadata, uiAddItem, tarCreate, writeArchiveMetadata,
        M.tryCatch, bind_apply, pure_apply, htd, hmk, hmo, htc, hwm]
    · simp [saveAction, getArchivesDir, fsMkdirRecursive,
        readArchiveMetadata, uiAddItem, tarCreate, writeArchiveMetadata,
        M.tryCatch, bind_apply, pure_apply, htd, hmk, hmo, htc, hwm]
  · constructor
    · decide
    · refine ⟨"Archive created at: /mock/tmp/archives/test-project-archive-20250101-120000.tar.gz with description: \"my important backup\"", ?_, ?_⟩ <;> decide

theorem claim5_witness :
    ((saveAction (some cfgTest) 1735732800000 ⟨2025, 0, 1, 12, 0, 0⟩
      "my important backup" wBase).2.writtenMetadata =
      some ([] ++
        [⟨pathBasename (jsOrDefault cfgTest.projectRoot "project") ++
          "-archive-" ++ formattedTimestamp ⟨2025, 0, 1, 12, 0, 0⟩ ++
          ".tar.gz", 1735732800000,
          jsTrim "my important backup"⟩]) ∧
    (saveAction (some cfgTest) 1735732800000 ⟨2025, 0, 1, 12, 0, 0⟩
      "my important backup" wBase).1 =
      Except.ok ⟨"info", "Archive created at: " ++
        pathJoin (pathJoin "/mock/tmp" ARCHIVES_DIR_NAME)
          (pathBasename (jsOrDefault cfgTest.projectRoot "project") ++
            "-archive-" ++ formattedTimestamp ⟨2025, 0, 1, 12, 0, 0⟩ ++
            ".tar.gz") ++
        (if jsTrim "my important backup" = "" then ""
         else " with description: \"" ++ jsTrim "my important backup" ++
           "\"")⟩ ∧
    formattedTimestamp ⟨2025, 0, 1, 12, 0, 0⟩ =
      toString (2025 : Nat) ++ padZero2 (toString (0 + 1)) ++
      padZero2 (toString (1 : Nat)) ++ "-" ++
      padZero2 (toString (12 : Nat)) ++ padZero2 (toString (0 : Nat)) ++
      padZero2 (toString (0 : Nat))) ∧
    ((saveAction (some cfgTest) 1735732800000 ⟨2025, 0, 1, 12, 0, 0⟩
      "my important backup" wBase).2.writtenMetadata =
      some [⟨"test-project-archive-20250101-120000.tar.gz", 1735732800000,
        "my important backup"⟩] ∧
    ∃ c, (saveAction (some cfgTest) 1735732800000 ⟨2025, 0, 1, 12, 0, 0⟩
        "my important backup" wBase).1 = Except.ok ⟨"info", c⟩ ∧
      strIncludes c "with description: \"my important backup\"" = true) :=
  claim5_save_filename_description cfgTest "/mock/tmp" 1735732800000
    ⟨2025, 0, 1, 12, 0, 0⟩ "my important backup" [] wBase
    (by decide) (by decide) (by decide) (by decide) (by decide)


theorem mem_jsSetDedup_aux (xs : List String) (acc : List String)
    (y : String) :
    (y ∈ xs.foldl (fun acc x =>
      if acc.contains x then acc else acc ++ [x]) acc) ↔
    (y ∈ acc ∨ y ∈ xs) := by
  induction xs generalizing acc with
  | nil => simp
  | cons x xs ih =>
    simp only [List.foldl_cons]
    rw [ih]
    by_cases hx : acc.contains x = true
    · have hx' : x ∈ acc := by simpa using hx
      rw [if_pos hx]
      constructor
      · rintro (h | h)
        · exact Or.inl h
        · exact Or.inr (List.mem_cons_of_mem _ h)
      · rintro (h | h)
        · exact Or.inl h
        · rcases List.mem_cons.mp h with rfl | h2
          · exact Or.inl hx'
          · exact Or.inr h2
    · rw [if_neg hx]
      simp only [List.mem_append, List.mem_singleton, List.mem_cons]
      tauto

theorem mem_jsSetDedup (xs : List String) (y : String) :
    y ∈ jsSetDedup xs ↔ y ∈ xs := by
  rw [jsSetDedup, mem_jsSetDedup_aux]
  simp

theorem nodup_jsSetDedup_aux (xs : List String) (acc : List String)
    (h : acc.Nodup) :
    (xs.foldl (fun acc x =>
      if acc.contains x then acc else acc ++ [x]) acc).Nodup := by
  induction xs generalizing acc with
  | nil => simpa
  | cons x xs ih =>
    simp only [List.foldl_cons]
    by_cases hx : acc.contains x = true
    · rw [if_pos hx]
      exact ih acc h
    · rw [if_neg hx]
      apply ih
      have hx' : x ∉ acc := by simpa using hx
      simp [List.nodup_append, h, hx']

theorem nodup_jsSetDedup (xs : List String) : (jsSetDedup xs).Nodup :=
  nodup_jsSetDedup_aux xs [] (by simp)

/-- Claim C6: the save handler's exclusion set is the deduplicated union of
`node_modules`, `.git`, `archives` and the filenames in the metadata store;
the archival filter includes a path exactly when, after stripping a leading
`./`, it does not start (plain string prefix) with any excluded name; in
particular the sibling directory `archives2` is (incorrectly but by
documented design) excluded. -/
theorem claim6_exclusion_set_and_filter :
    (∀ records (x : String), x ∈ saveExcludes records ↔
      (x ∈ ["node_modules", ".git", ARCHIVES_DIR_NAME] ∨
       x ∈ records.map (fun m => m.filename))) ∧
    (∀ records, (saveExcludes records).Nodup) ∧
    (∀ excl p, saveFilter excl p = true ↔
      ∀ e ∈ excl, strStartsWith (stripDotSlash p) e = false) ∧
    saveFilter (saveExcludes []) "archives2/file.txt" = false ∧
    saveFilter (saveExcludes []) "./archives2/file.txt" = false := by
  refine ⟨?_, ?_, ?_, by decide, by decide⟩
  · intro records x
    rw [saveExcludes, mem_jsSetDedup]
    simp
    tauto
  · intro records
    exact nodup_jsSetDedup _
  · intro excl p
    simp [saveFilter, List.any_eq_true]


/-- Claim C7 counterexample: with two same-project records sharing a
timestamp, the list the handler renders contains both and is not strictly
descending by timestamp. -/
theorem claim7_counterexample :
    ¬ ((listedRecords "test-project"
      [⟨"test-project-archive-a", 5, ""⟩,
       ⟨"test-project-archive-b", 5, "d"⟩]).Pairwise
      (fun a b => a.timestamp > b.timestamp)) := by
  decide

/-- Claim C7 (amended): list mode renders exactly the records whose
filename matches `<projectBaseName>-archive-` (a permutation of that
filter, so mismatching records never appear), sorted in non-increasing
timestamp order — strictly descending whenever the timestamps are
distinct. -/
theorem claim7_amended (projectName : String)
    (archives : List ArchiveMetadata) :
    (listedRecords projectName archives).Pairwise
      (fun a b => b.timestamp ≤ a.timestamp) ∧
    (listedRecords projectName archives).Perm
      (archives.filter (fun a => strStartsWith a.filename
        (projectName ++ "-archive-"))) ∧
    (∀ r ∈ listedRecords projectName archives,
      strStartsWith r.filename (projectName ++ "-archive-") = true) ∧
    (((listedRecords projectName archives).map
        (fun r => r.timestamp)).Nodup →
      (listedRecords projectName archives).Pairwise
        (fun a b => a.timestamp > b.timestamp)) := by
  have hperm : (listedRecords projectName archives).Perm
      (archives.filter (fun a => strStartsWith a.filename
        (projectName ++ "-archive-"))) := by
    rw [listedRecords, jsSortByTimestampDesc]
    exact List.perm_insertionSort _ _
  have hsorted : (listedRecords projectName archives).Pairwise
      (fun a b => b.timestamp ≤ a.timestamp) := by
    rw [listedRecords, jsSortByTimestampDesc]
    letI : IsTotal ArchiveMetadata (fun a b => b.timestamp ≤ a.timestamp) :=
      ⟨fun a b => le_total b.timestamp a.timestamp⟩
    letI : IsTrans ArchiveMetadata (fun a b => b.timestamp ≤ a.timestamp) :=
      ⟨fun a b c hab hbc => le_trans hbc hab⟩
    exact List.sorted_insertionSort _ _
  refine ⟨hsorted, hperm, ?_, ?_⟩
  · intro r hr
    exact (List.mem_filter.mp (hperm.mem_iff.mp hr)).2
  · intro hnd
    have hne : (listedRecords projectName archives).Pairwise
        (fun a b => a.timestamp ≠ b.timestamp) := by
      rw [List.Nodup, List.pairwise_map] at hnd
      exact hnd
    exact (hsorted.and hne).imp
      (fun h => lt_of_le_of_ne h.1 (Ne.symm h.2))

theorem claim7_witness :
    (listedRecords "test-project"
      [⟨"test-project-archive-a", 5, ""⟩,
       ⟨"test-project-archive-b", 7, "d"⟩,
       ⟨"other-x", 9, ""⟩]).Pairwise
      (fun a b => b.timestamp ≤ a.timestamp) ∧
    (listedRecords "test-project"
      [⟨"test-project-archive-a", 5, ""⟩,
       ⟨"test-project-archive-b", 7, "d"⟩,
       ⟨"other-x", 9, ""⟩]).Perm
      ([⟨"test-project-archive-a", 5, ""⟩,
        ⟨"test-project-archive-b", 7, "d"⟩,
        ⟨"other-x", 9, ""⟩].filter (fun a => strStartsWith a.filename
          ("test-project" ++ "-archive-"))) ∧
    (∀ r ∈ listedRecords "test-project"
        [⟨"test-project-archive-a", 5, ""⟩,
         ⟨"test-project-archive-b", 7, "d"⟩,
         ⟨"other-x", 9, ""⟩],
      strStartsWith r.filename ("test-project" ++ "-archive-") = true) ∧
    (((listedRecords "test-project"
        [⟨"test-project-archive-a", 5, ""⟩,
         ⟨"test-project-archive-b", 7, "d"⟩,
         ⟨"other-x", 9, ""⟩]).map (fun r => r.timestamp)).Nodup →
      (listedRecords "test-project"
        [⟨"test-project-archive-a", 5, ""⟩,
         ⟨"test-project-archive-b", 7, "d"⟩,
         ⟨"other-x", 9, ""⟩]).Pairwise
        (fun a b => a.timestamp > b.timestamp)) :=
  claim7_amended "test-project"
    [⟨"test-project-archive-a", 5, ""⟩,
     ⟨"test-project-archive-b", 7, "d"⟩,
     ⟨"other-x", 9, ""⟩]

/-- Claim C8: when the metadata store holds zero records for the current
project (no sidecar, or no record matching the project's filename prefix),
list mode returns exactly the informational message `No saved archives
found for the current project.` and the completion provider returns the
empty suggestion list. -/
theorem claim8_empty_list_message_and_completion
    (cfg : Config) (tdir : String) (args : String) (force : Bool)
    (fmt : Int → String) (w : World)
    (h1 : cfg.projectTempDir = some tdir)
    (h3 : w.mkdirFails = none)
    (h4 : parseArgs args = ("", force))
    (hmeta : w.metaOutcome = MetaOutcome.enoent ∨
      ∃ records, w.metaOutcome = MetaOutcome.ok records ∧
        records.filter (fun a => strStartsWith a.filename
          (pathBasename (jsOrDefault cfg.projectRoot "project") ++
            "-archive-")) = []) :
    (loadAction (some cfg) fmt args w).1 =
      Except.ok ⟨"info",
        "No saved archives found for the current project."⟩ ∧
    (completion (some cfg) w).1 = Except.ok [] := by
  rcases hmeta with hmo | ⟨records, hmo, hflt⟩
  · constructor
    · simp [loadAction, getArchivesDir, fsMkdirRecursive,
        readArchiveMetadata, M.tryCatch, bind_apply, pure_apply,
        h1, h3, h4, hmo]
    · simp [completion, getArchivesDir, fsMkdirRecursive,
        readArchiveMetadata, listedRecords, jsSortByTimestampDesc,
        M.tryCatch, bind_apply, pure_apply, h1, h3, hmo]
  · have hflt' : ∀ a ∈ records, strStartsWith a.filename
        (pathBasename (jsOrDefault cfg.projectRoot "project") ++
          "-archive-") = false := by
      simpa using hflt
    constructor
    · simp [loadAction, getArchivesDir, fsMkdirRecursive,
        readArchiveMetadata, M.tryCatch, bind_apply, pure_apply,
        h1, h3, h4, hmo]
      rw [if_pos hflt']
    · simp [completion, getArchivesDir, fsMkdirRecursive,
        readArchiveMetadata, listedRecords, jsSortByTimestampDesc,
        M.tryCatch, bind_apply, pure_apply, h1, h3, hmo, hflt]

theorem claim8_witness :
    (loadAction (some cfgTest) fmtDateTest "" wBase).1 =
      Except.ok ⟨"info",
        "No saved archives found for the current project."⟩ ∧
    (completion (some cfgTest) wBase).1 = Except.ok [] :=
  claim8_empty_list_message_and_completion cfgTest "/mock/tmp" "" false
    fmtDateTest wBase (by decide) (by decide) (by decide)
    (Or.inr ⟨[], rfl, rfl⟩)


/-- Claim C9 counterexample: a legacy file whose parsed object contains a
`history` field with a falsy value (`{"history": null}`) and no
`clientHistory` field: the handler calls the UI history sink zero times —
not exactly once — and reports success. -/
theorem claim9_counterexample :
    wLegacyNull.legacyOutcome = Except.ok ⟨some ⟨false, 7⟩, none⟩ ∧
    (loadAction (some cfgTest) fmtDateTest "old.json"
      wLegacyNull).2.uiHistoryCalls = [] ∧
    (loadAction (some cfgTest) fmtDateTest "old.json" wLegacyNull).1 =
      Except.ok ⟨"info", "Archive 'old.json' loaded successfully."⟩ := by
  decide

/-- Claim C9 (amended): for a legacy (non-`.tar.gz`) file whose parsed
object has a `history` field and no `clientHistory` field: if the field's
value is truthy, the UI history sink is called exactly once with that value
and the chat-client sink is never called, and if the UI sink is unavailable
the handler returns the descriptive error without calling either sink; if
the field's value is falsy (e.g. `null`), neither sink is called. -/
theorem claim9_amended (cfg : Config) (tdir : String) (fmt : Int → String)
    (args f : String) (force : Bool) (w : World) (doc : LegacyDoc)
    (htd : cfg.projectTempDir = some tdir)
    (hmk : w.mkdirFails = none)
    (hpa : parseArgs args = (f, force))
    (hf : f ≠ "")
    (h6 : strEndsWith f ".tar.gz" = false)
    (hlo : w.legacyOutcome = Except.ok doc)
    (hch : doc.clientHistory = none) :
    (∀ v, doc.history = some v → v.truthy = true →
      (w.uiHasLoadHistory = true →
        (loadAction (some cfg) fmt args w).2.uiHistoryCalls =
          w.uiHistoryCalls ++ [v] ∧
        (loadAction (some cfg) fmt args w).2.clientHistoryCalls =
          w.clientHistoryCalls) ∧
      (w.uiHasLoadHistory = false →
        (loadAction (some cfg) fmt args w).1 =
          Except.ok ⟨"error", "loadHistory function is not available."⟩ ∧
        (loadAction (some cfg) fmt args w).2.uiHistoryCalls =
          w.uiHistoryCalls ∧
        (loadAction (some cfg) fmt args w).2.clientHistoryCalls =
          w.clientHistoryCalls)) ∧
    (∀ v, doc.history = some v → v.truthy = false →
      (loadAction (some cfg) fmt args w).2.uiHistoryCalls =
        w.uiHistoryCalls ∧
      (loadAction (some cfg) fmt args w).2.clientHistoryCalls =
        w.clientHistoryCalls) := by
  rw [loadAction_legacy_reduce cfg tdir fmt args f force w htd hmk hpa hf
    h6]
  constructor
  · intro v hv hvt
    constructor
    · intro ha
      constructor <;>
        simp [M.tryCatch, legacyBranch, legacyTail, bind_apply, pure_apply,
          fsReadLegacy, uiLoadHistoryAvailable, uiLoadHistory, hlo, hv,
          hvt, hch, ha]
    · intro ha
      refine ⟨?_, ?_, ?_⟩ <;>
        simp [M.tryCatch, legacyBranch, legacyTail, bind_apply, pure_apply,
          fsReadLegacy, uiLoadHistoryAvailable, hlo, hv, hvt, hch, ha]
  · intro v hv hvt
    constructor <;>
      simp [M.tryCatch, legacyBranch, legacyTail, bind_apply, pure_apply,
        fsReadLegacy, hlo, hv, hvt, hch]

theorem claim9_witness :
    (∀ v, (⟨some ⟨true, 7⟩, none⟩ : LegacyDoc).history = some v →
      v.truthy = true →
      (wLegacyHist.uiHasLoadHistory = true →
        (loadAction (some cfgTest) fmtDateTest "old.json"
          wLegacyHist).2.uiHistoryCalls =
          wLegacyHist.uiHistoryCalls ++ [v] ∧
        (loadAction (some cfgTest) fmtDateTest "old.json"
          wLegacyHist).2.clientHistoryCalls =
          wLegacyHist.clientHistoryCalls) ∧
      (wLegacyHist.uiHasLoadHistory = false →
        (loadAction (some cfgTest) fmtDateTest "old.json"
          wLegacyHist).1 =
          Except.ok ⟨"error", "loadHistory function is not available."⟩ ∧
        (loadAction (some cfgTest) fmtDateTest "old.json"
          wLegacyHist).2.uiHistoryCalls = wLegacyHist.uiHistoryCalls ∧
        (loadAction (some cfgTest) fmtDateTest "old.json"
          wLegacyHist).2.clientHistoryCalls =
          wLegacyHist.clientHistoryCalls)) ∧
    (∀ v, (⟨some ⟨true, 7⟩, none⟩ : LegacyDoc).history = some v →
      v.truthy = false →
      (loadAction (some cfgTest) fmtDateTest "old.json"
        wLegacyHist).2.uiHistoryCalls = wLegacyHist.uiHistoryCalls ∧
      (loadAction (some cfgTest) fmtDateTest "old.json"
        wLegacyHist).2.clientHistoryCalls =
        wLegacyHist.clientHistoryCalls) :=
  claim9_amended cfgTest "/mock/tmp" fmtDateTest "old.json" "old.json"
    false wLegacyHist ⟨some ⟨true, 7⟩, none⟩ (by decide) (by decide)
    (by decide) (by decide) (by decide) (by decide) (by decide)

theorem legacyBranch_trace (f fp : String) (w : World) :
    (legacyBranch f fp w).2.trace = w.trace ++ [FsOp.readFileOp fp] := by
  cases hlo : w.legacyOutcome with
  | error e =>
    simp [legacyBranch, bind_apply, fsReadLegacy, hlo]
  | ok doc =>
    cases hh : doc.history with
    | none =>
      cases hch : doc.clientHistory with
      | none =>
        simp [legacyBranch, legacyTail, bind_apply, pure_apply,
          fsReadLegacy, hlo, hh, hch]
      | some v =>
        by_cases hv : v.truthy = true <;>
          cases hca : w.clientAvailable <;>
            simp [legacyBranch, legacyTail, bind_apply, pure_apply,
              fsReadLegacy, clientSetHistoryMaybe, hlo, hh, hch, hv, hca]
    | some v =>
      by_cases hv : v.truthy = true
      · cases ha : w.uiHasLoadHistory with
        | false =>
          simp [legacyBranch, bind_apply, pure_apply, fsReadLegacy,
            uiLoadHistoryAvailable, hlo, hh, hv, ha]
        | true =>
          cases hch : doc.clientHistory with
          | none =>
            simp [legacyBranch, legacyTail, bind_apply, pure_apply,
              fsReadLegacy, uiLoadHistoryAvailable, uiLoadHistory, hlo,
              hh, hv, ha, hch]
          | some v2 =>
            by_cases hv2 : v2.truthy = true <;>
              cases hca : w.clientAvailable <;>
                simp [legacyBranch, legacyTail, bind_apply, pure_apply,
                  fsReadLegacy, uiLoadHistoryAvailable, uiLoadHistory,
                  clientSetHistoryMaybe, hlo, hh, hv, ha, hch, hv2, hca]
      · cases hch : doc.clientHistory with
        | none =>
          simp [legacyBranch, legacyTail, bind_apply, pure_apply,
            fsReadLegacy, hlo, hh, hv, hch]
        | some v2 =>
          by_cases hv2 : v2.truthy = true <;>
            cases hca : w.clientAvailable <;>
              simp [legacyBranch, legacyTail, bind_apply, pure_apply,
                fsReadLegacy, clientSetHistoryMaybe, hlo, hh, hv, hch,
                hv2, hca]


/-- Claim C10: for every non-empty parsed filename argument the load
handler operates on `path.join(archivesDir, argument)` verbatim — the
legacy branch reads that very path and the forced restore branch extracts
that very path — and no containment check is made: a `..` argument
resolves to a path outside the archives directory, as the concrete
`../escape.tar.gz` example shows. -/
theorem claim10_path_join_verbatim (cfg : Config) (tdir : String)
    (fmt : Int → String) (args f : String) (force : Bool) (w : World)
    (htd : cfg.projectTempDir = some tdir)
    (hmk : w.mkdirFails = none)
    (hpa : parseArgs args = (f, force))
    (hf : f ≠ "") :
    (strEndsWith f ".tar.gz" = false →
      FsOp.readFileOp (pathJoin (pathJoin tdir ARCHIVES_DIR_NAME) f) ∈
        (loadAction (some cfg) fmt args w).2.trace) ∧
    (∀ r, strEndsWith f ".tar.gz" = true → cfg.projectRoot = some r →
      r ≠ "" → force = true →
      FsOp.extractOp (pathJoin (pathJoin tdir ARCHIVES_DIR_NAME) f)
        (pathJoin osTmpdir "gemini-cli-load-" ++ "XXXXXX") ∈
        (loadAction (some cfg) fmt args w).2.trace) ∧
    pathJoin "/mock/tmp/archives" "../escape.tar.gz" =
      "/mock/tmp/escape.tar.gz" ∧
    strStartsWith (pathJoin "/mock/tmp/archives" "../escape.tar.gz")
      "/mock/tmp/archives/" = false := by
  refine ⟨?_, ?_, by decide, by decide⟩
  · intro h6
    rw [loadAction_legacy_reduce cfg tdir fmt args f force w htd hmk hpa
      hf h6]
    rcases hlb : legacyBranch f
      (pathJoin (pathJoin tdir ARCHIVES_DIR_NAME) f)
      { w with archivesDirExists := true,
               trace := w.trace ++
                 [FsOp.mkdirOp (pathJoin tdir ARCHIVES_DIR_NAME)] }
      with ⟨res, w'⟩
    have htr := legacyBranch_trace f
      (pathJoin (pathJoin tdir ARCHIVES_DIR_NAME) f)
      { w with archivesDirExists := true,
               trace := w.trace ++
                 [FsOp.mkdirOp (pathJoin tdir ARCHIVES_DIR_NAME)] }
    rw [hlb] at htr
    simp only [] at htr
    cases res <;> (simp at htr; simp [M.tryCatch, hlb, pure_apply, htr])
  · intro r h6 hpr hr hforce
    subst hforce
    rw [loadAction_restore_reduce cfg tdir r fmt args f w htd hpr hr hmk
      hpa hf h6]
    obtain ⟨res, w', hres, -, -, hmem⟩ := restoreWithForce_outcome f
      (pathJoin (pathJoin tdir ARCHIVES_DIR_NAME) f) r
      { w with archivesDirExists := true,
               trace := w.trace ++
                 [FsOp.mkdirOp (pathJoin tdir ARCHIVES_DIR_NAME)] }
    cases res <;> simp [M.tryCatch, hres, pure_apply, hmem]

theorem claim10_witness :
    (strEndsWith "escape.tar.gz" ".tar.gz" = false →
      FsOp.readFileOp (pathJoin (pathJoin "/mock/tmp" ARCHIVES_DIR_NAME)
        "escape.tar.gz") ∈
        (loadAction (some cfgTest) fmtDateTest "escape.tar.gz --force"
          wBase).2.trace) ∧
    (∀ r, strEndsWith "escape.tar.gz" ".tar.gz" = true →
      cfgTest.projectRoot = some r → r ≠ "" → true = true →
      FsOp.extractOp (pathJoin (pathJoin "/mock/tmp" ARCHIVES_DIR_NAME)
        "escape.tar.gz")
        (pathJoin osTmpdir "gemini-cli-load-" ++ "XXXXXX") ∈
        (loadAction (some cfgTest) fmtDateTest "escape.tar.gz --force"
          wBase).2.trace) ∧
    pathJoin "/mock/tmp/archives" "../escape.tar.gz" =
      "/mock/tmp/escape.tar.gz" ∧
    strStartsWith (pathJoin "/mock/tmp/archives" "../escape.tar.gz")
      "/mock/tmp/archives/" = false :=
  claim10_path_join_verbatim cfgTest "/mock/tmp" fmtDateTest
    "escape.tar.gz --force" "escape.tar.gz" true wBase (by decide)
    (by decide) (by decide) (by decide)

end GeminiArchive
